import Mathlib

/-!
# Mem-KV-Store: a versioned key-value store with immutable snapshots

Shallow embedding of `src/inc/kv_store.hpp`, `src/inc/snapshot.hpp` and
`src/inc/rwmutex.hpp`.

* `Container` embeds the default container `std::unordered_map<Key, Value>`: a finite
  sequence of entries (in the container's iteration order) whose keys are pairwise
  distinct.  An iterator is a position in that sequence; `cend` is the past-the-end
  position.
* `Snapshot` embeds `kvstore::Snapshot`: a private copy of a container and a version.
* `KVStore` embeds `kvstore::KVStore`: the container `data_`, the 64-bit counter
  `version_` (a natural number, every increment taken modulo `2 ^ 64`), and, in place
  of the member `mutex_` (whose method bodies are not part of the sources), the trace
  of the calls the operations make on the mutex and of their accesses to `data_` and
  `version_`, in program order.  Every operation is a state transformer that returns
  its result together with the store afterwards.
* `Frame`, `Stmt` and `Guard` embed the method bodies of `KVStore` once more, statement
  by statement under their lock guard: a statement that reads or writes `data_` or
  `version_` runs only while the executing thread holds the mutex as needed, and every
  executed step is recorded with the state it leaves.
* `RWMutex` embeds `kvstore::util::RWMutex`: the underlying `std::shared_mutex` and the
  three counters, with one atomic step per method call of any thread (`lock` in two
  steps: entering and being admitted).  The rule by which readers yield to writers is
  a parameter of the steps.
-/

namespace kvstore

/-! ## The container -/

/-- Insert-or-overwrite on the entry sequence: the effect of `data_[key] = value`.
An entry whose key equals `key` keeps its place and gets the new mapped value;
otherwise a new entry is added. -/
def assignEntries {K V : Type} [DecidableEq K] (key : K) (value : V) :
    List (K × V) → List (K × V)
  | [] => [(key, value)]
  | e :: t => if e.1 = key then (e.1, value) :: t else e :: assignEntries key value t

/-- Insert-or-overwrite never produces two entries with the same key. -/
theorem assignEntries_keys {K V : Type} [DecidableEq K] (key : K) (value : V)
    (l : List (K × V)) :
    (assignEntries key value l).map Prod.fst =
      if key ∈ l.map Prod.fst then l.map Prod.fst else l.map Prod.fst ++ [key] := by
  induction l with
  | nil => simp [assignEntries]
  | cons e t ih =>
    by_cases h : e.1 = key
    · simp [assignEntries, h]
    · have h2 : ¬ key = e.1 := fun h3 => h h3.symm
      by_cases hm : key ∈ t.map Prod.fst
      · simp only [assignEntries, h, if_false, List.map_cons, ih, hm, if_true,
          List.mem_cons, or_true]
      · simp only [assignEntries, h, if_false, List.map_cons, ih, hm,
          List.mem_cons, h2, or_self, List.cons_append]

/-- Insert-or-overwrite keeps the keys pairwise distinct. -/
theorem assignEntries_nodup {K V : Type} [DecidableEq K] (key : K) (value : V)
    (l : List (K × V)) (h : (l.map Prod.fst).Nodup) :
    ((assignEntries key value l).map Prod.fst).Nodup := by
  rw [assignEntries_keys]
  by_cases hm : key ∈ l.map Prod.fst
  · simpa [hm] using h
  · rw [if_neg hm]
    exact List.Nodup.append h (List.nodup_singleton key)
      (List.disjoint_singleton.mpr hm)

/-- The container `std::unordered_map<Key, Value>`: its entries in iteration order,
with pairwise distinct keys. -/
structure Container (K V : Type) where
  entries : List (K × V)
  unique : (entries.map Prod.fst).Nodup

namespace Container

variable {K V : Type} [DecidableEq K]

/-- A default-constructed (empty) container. -/
def nil : Container K V := ⟨[], List.nodup_nil⟩

/-- The past-the-end iterator `end()`. -/
def cend (c : Container K V) : Nat := c.entries.length

/-- The iterator `find(key)`: the position of the entry with that key, `end()` when
there is none. -/
def find (c : Container K V) (key : K) : Nat :=
  c.entries.findIdx (fun e => decide (e.1 = key))

/-- Dereferencing an iterator: the entry `*it` at a position before `end()`. -/
def deref (c : Container K V) (it : Nat) : Option (K × V) := c.entries[it]?

/-- Member `erase(it)`: remove the entry the iterator points to. -/
def erase (c : Container K V) (it : Nat) : Container K V :=
  ⟨c.entries.eraseIdx it,
    ((List.eraseIdx_sublist c.entries it).map Prod.fst).nodup c.unique⟩

/-- The statement `c[key] = value`. -/
def assign (c : Container K V) (key : K) (value : V) : Container K V :=
  ⟨assignEntries key value c.entries, assignEntries_nodup key value c.entries c.unique⟩

/-- Member `size()`. -/
def size (c : Container K V) : Nat := c.entries.length

/-- The keys of a container, in iteration order. -/
def keys (c : Container K V) : List K := c.entries.map Prod.fst

/-- Member `empty()`. -/
def empty (c : Container K V) : Bool := c.entries.isEmpty

end Container

/-- What both `get` methods compute from a container's entries: `find`, the test
against `end()`, and the mapped value of the entry found. -/
def lookupEntries {K V : Type} [DecidableEq K] (l : List (K × V)) (key : K) : Option V :=
  if l.findIdx (fun e => decide (e.1 = key)) ≠ l.length then
    (l[l.findIdx (fun e => decide (e.1 = key))]?).map Prod.snd
  else none

/-! ## Snapshot (`src/inc/snapshot.hpp`) -/

/-- An immutable snapshot: its own copy of the container and the version stamped on it
by the constructor `Snapshot(data, version)`. -/
structure Snapshot (K V : Type) where
  data_ : Container K V
  version_ : Nat

namespace Snapshot

variable {K V : Type} [DecidableEq K]

/-- Method `Snapshot::get`. -/
def get (S : Snapshot K V) (key : K) : Option V :=
  let it := S.data_.find key
  if it ≠ S.data_.cend then (S.data_.deref it).map Prod.snd
  else none

/-- Method `Snapshot::contains`. -/
def contains (S : Snapshot K V) (key : K) : Bool :=
  decide (S.data_.find key ≠ S.data_.cend)

/-- Method `Snapshot::version`. -/
def version (S : Snapshot K V) : Nat := S.version_

/-- Method `Snapshot::size`. -/
def size (S : Snapshot K V) : Nat := S.data_.size

/-- Method `Snapshot::empty`. -/
def empty (S : Snapshot K V) : Bool := S.data_.empty

end Snapshot

/-! ## KVStore (`src/inc/kv_store.hpp`) -/

/-- What an operation does to the members of the store, in program order: the four
calls the lock guards make on `mutex_`, and the accesses to `data_` and `version_`. -/
inductive Event where
  | lock_shared
  | unlock_shared
  | lock
  | unlock
  | data_read
  | data_write
  | version_load
  | version_fetch_add
  deriving DecidableEq, Repr

/-- The width of the version counter: `atomic<uint64_t>` counts modulo `2 ^ 64`. -/
def VERSION_MOD : Nat := 2 ^ 64

/-- The call `fetch_add(1)` on the 64-bit counter: the value it stores. -/
def fetch_add (version : Nat) (n : Nat) : Nat := (version + n) % VERSION_MOD

/-- The store: the container, the version counter, and the trace of member accesses. -/
structure KVStore (K V : Type) where
  data_ : Container K V
  version_ : Nat
  trace : List Event

namespace KVStore

variable {K V : Type} [DecidableEq K]

/-- A freshly constructed store: `KVStore() = default`, with `version_{0}`. -/
def fresh : KVStore K V := ⟨Container.nil, 0, []⟩

/-- Record one event at the end of the trace. -/
def emit (s : KVStore K V) (e : Event) : KVStore K V :=
  { s with trace := s.trace ++ [e] }

/-- Method `KVStore::get`. -/
def get (s : KVStore K V) (key : K) : Option V × KVStore K V :=
  let s := s.emit Event.lock_shared
  let it := s.data_.find key
  let s := s.emit Event.data_read
  if it ≠ s.data_.cend then ((s.data_.deref it).map Prod.snd, s.emit Event.unlock_shared)
  else (none, s.emit Event.unlock_shared)

/-- Method `KVStore::put`. -/
def put (s : KVStore K V) (key : K) (value : V) : KVStore K V :=
  let s := s.emit Event.lock
  let s := { s with data_ := s.data_.assign key value }.emit Event.data_write
  let s := { s with version_ := fetch_add s.version_ 1 }.emit Event.version_fetch_add
  s.emit Event.unlock

/-- Method `KVStore::erase`. -/
def erase (s : KVStore K V) (key : K) : Bool × KVStore K V :=
  let s := s.emit Event.lock
  let it := s.data_.find key
  let s := s.emit Event.data_read
  if it = s.data_.cend then (false, s.emit Event.unlock)
  else
    let s := { s with data_ := s.data_.erase it }.emit Event.data_write
    let s := { s with version_ := fetch_add s.version_ 1 }.emit Event.version_fetch_add
    (true, s.emit Event.unlock)

/-- Method `KVStore::snapshot`. -/
def snapshot (s : KVStore K V) : Snapshot K V × KVStore K V :=
  let s := s.emit Event.lock_shared
  let ver := s.version_
  let s := s.emit Event.version_load
  let snap : Snapshot K V := ⟨s.data_, ver⟩
  let s := s.emit Event.data_read
  (snap, s.emit Event.unlock_shared)

/-- Method `KVStore::size`. -/
def size (s : KVStore K V) : Nat × KVStore K V :=
  let s := s.emit Event.lock_shared
  let n := s.data_.size
  let s := s.emit Event.data_read
  (n, s.emit Event.unlock_shared)

/-- Method `KVStore::empty`. -/
def empty (s : KVStore K V) : Bool × KVStore K V :=
  let s := s.emit Event.lock_shared
  let b := s.data_.empty
  let s := s.emit Event.data_read
  (b, s.emit Event.unlock_shared)

end KVStore

/-! ## Client programs: sequences of operations on one store -/

/-- One call on the store. -/
inductive Op (K V : Type) where
  | get (key : K)
  | put (key : K) (value : V)
  | erase (key : K)
  | snapshot
  | size
  | empty

/-- A single-threaded client: the store it operates on and the snapshots it has been
handed so far, oldest first. -/
structure Client (K V : Type) where
  store : KVStore K V
  snaps : List (Snapshot K V)

namespace Client

variable {K V : Type} [DecidableEq K]

/-- A client holding a freshly constructed store and no snapshot. -/
def start : Client K V := ⟨KVStore.fresh, []⟩

/-- The client performs one call; a snapshot it is handed is kept after the ones it
already holds. -/
def step (c : Client K V) : Op K V → Client K V
  | Op.get key => { c with store := (c.store.get key).2 }
  | Op.put key value => { c with store := c.store.put key value }
  | Op.erase key => { c with store := (c.store.erase key).2 }
  | Op.snapshot =>
    { store := c.store.snapshot.2, snaps := c.snaps ++ [c.store.snapshot.1] }
  | Op.size => { c with store := c.store.size.2 }
  | Op.empty => { c with store := c.store.empty.2 }

/-- The client performs a sequence of calls, first to last. -/
def run (c : Client K V) : List (Op K V) → Client K V
  | [] => c
  | op :: ops => run (c.step op) ops

end Client

/-- Whether a call is a `put` or an `erase` that names the key `k`. -/
def Op.writes {K V : Type} [DecidableEq K] (k : K) : Op K V → Bool
  | Op.put key _ => decide (key = k)
  | Op.erase key => decide (key = k)
  | _ => false

/-- The calls after which the code has advanced `version_`: every `put`, and an
`erase` whose key is in the container when it is called. -/
def Op.bumps {K V : Type} [DecidableEq K] (s : KVStore K V) : Op K V → Bool
  | Op.put _ _ => true
  | Op.erase key => decide (key ∈ s.data_.keys)
  | _ => false

/-- A successful mutation in the words of the data model: a `put` that inserts a new
key or changes the stored value, or an `erase` that removes an entry. -/
def Op.mutates {K V : Type} [DecidableEq K] [DecidableEq V] (s : KVStore K V) :
    Op K V → Bool
  | Op.put key value => decide (lookupEntries s.data_.entries key ≠ some value)
  | Op.erase key => decide (key ∈ s.data_.keys)
  | _ => false

/-- How many calls of a sequence are `counted`, each judged in the store state in which
it is made. -/
def Client.count {K V : Type} [DecidableEq K] (counted : KVStore K V → Op K V → Bool)
    (c : Client K V) : List (Op K V) → Nat
  | [] => 0
  | op :: ops => (if counted c.store op then 1 else 0) + Client.count counted (c.step op) ops

/-- The store a client holds after `n` calls `put(key, value)` on a freshly constructed
store. -/
def KVStore.afterPuts {K V : Type} [DecidableEq K] (n : Nat) (key : K) (value : V) :
    KVStore K V :=
  ((Client.start : Client K V).run (List.replicate n (Op.put key value))).store

/-! ## Iteration over a snapshot -/

/-- Member `begin()` of the container: the position of its first entry. -/
def Container.cbegin {K V : Type} (_c : Container K V) : Nat := 0

/-- Method `Snapshot::begin`. -/
def Snapshot.begin {K V : Type} (S : Snapshot K V) : Nat := S.data_.cbegin

/-- Method `Snapshot::end`. -/
def Snapshot.end_ {K V : Type} (S : Snapshot K V) : Nat := S.data_.cend

/-- The loop `for (; it != last; ++it)` over a container, collecting `*it`.  It gives
`none` when the fuel runs out before `it` reaches `last`, or when `it` leaves the
container. -/
def Container.traverse {K V : Type} (c : Container K V) (last : Nat) :
    Nat → Nat → Option (List (K × V))
  | 0, _ => none
  | fuel + 1, it =>
    if it = last then some []
    else
      match c.deref it with
      | none => none
      | some e => (Container.traverse c last fuel (it + 1)).map (fun rest => e :: rest)

/-- A traversal of a snapshot from `begin()` to `end()`. -/
def Snapshot.iterate {K V : Type} (S : Snapshot K V) (fuel : Nat) : Option (List (K × V)) :=
  S.data_.traverse S.end_ fuel S.begin

/-! ## The concrete scenario -/

/-- The store after `put("a", 1)` on a freshly constructed store. -/
def scenario1 : KVStore String Nat := KVStore.fresh.put "a" 1

/-- The store after the further call `put("b", 2)`. -/
def scenario2 : KVStore String Nat := scenario1.put "b" 2

/-- The snapshot `S1` taken next. -/
def scenarioS1 : Snapshot String Nat := scenario2.snapshot.1

/-- The store after `snapshot()` and then `erase("a")`. -/
def scenario3 : KVStore String Nat := (scenario2.snapshot.2.erase "a").2

/-! ## Critical sections in the trace -/

/-- The events an operation has recorded: what the trace of `after` holds beyond the
trace of `before`. -/
def KVStore.eventsSince {K V : Type} (before after : KVStore K V) : List Event :=
  after.trace.drop before.trace.length

/-- A shared critical section: the events start with the one `lock_shared`, end with
the one `unlock_shared`, and hold no call of the exclusive guard. -/
def SharedSection (evs : List Event) : Prop :=
  evs.head? = some Event.lock_shared ∧ evs.getLast? = some Event.unlock_shared ∧
  evs.count Event.lock_shared = 1 ∧ evs.count Event.unlock_shared = 1 ∧
  evs.count Event.lock = 0 ∧ evs.count Event.unlock = 0

/-- An exclusive critical section: the events start with the one `lock`, end with the
one `unlock`, and hold no call of the shared guard. -/
def ExclusiveSection (evs : List Event) : Prop :=
  evs.head? = some Event.lock ∧ evs.getLast? = some Event.unlock ∧
  evs.count Event.lock = 1 ∧ evs.count Event.unlock = 1 ∧
  evs.count Event.lock_shared = 0 ∧ evs.count Event.unlock_shared = 0

/-- The version is incremented once, after the write to the map and before the
release of the exclusive lock. -/
def IncrementAfterWrite (evs : List Event) : Prop :=
  evs.count Event.version_fetch_add = 1 ∧
  evs.indexOf Event.data_write < evs.indexOf Event.version_fetch_add ∧
  evs.indexOf Event.version_fetch_add < evs.indexOf Event.unlock

/-! ## The lock (`src/inc/rwmutex.hpp`) -/

/-- The underlying `std::shared_mutex`: how many threads hold it in shared mode and
whether a thread holds it in exclusive mode. -/
structure SharedMutex where
  shared : Nat
  exclusive : Bool
  deriving DecidableEq, Repr

/-- Modelled from the spec: the state of `RWMutex`.  The header declares the members
below and the six methods; the method bodies are missing.  The state is the underlying
primitive and the three counters of the data model. -/
structure RWMutex where
  mutex_ : SharedMutex
  waiting_writers_ : Int
  active_readers_ : Int
  consecutive_readers_ : Int
  deriving DecidableEq, Repr

/-- The constant `RWMutex::MAX_READERS_BEFORE_WRITER`. -/
def MAX_READERS_BEFORE_WRITER : Int := 100

namespace RWMutex

/-- A default-constructed lock: nothing held, all counters 0. -/
def init : RWMutex := ⟨⟨0, false⟩, 0, 0, 0⟩

/-- Modelled from the spec: the fairness part of the admission rule for readers,
missing with the body of `lock_shared`.  New readers wait while a writer is waiting,
and also once `consecutive_readers_` has reached the threshold (reaching it counts as
a pending writer).  The exact formula is left to the implementer, so the methods below
take the fairness rule as the parameter `policy`; this one is the rule as worded. -/
def writer_priority (m : RWMutex) : Bool :=
  decide (m.waiting_writers_ ≤ 0) &&
    decide (m.consecutive_readers_ < MAX_READERS_BEFORE_WRITER)

/-- Modelled from the spec: the admission rule for readers.  A reader is admitted when
the underlying primitive can grant shared access (no writer holds it) and the fairness
rule allows it. -/
def admits_reader (policy : RWMutex → Bool) (m : RWMutex) : Bool :=
  !m.mutex_.exclusive && policy m

/-- Modelled from the spec: the counter updates of a reader's admission, missing with
the bodies of `lock_shared` and `try_lock_shared`: shared access is taken and
`active_readers_` and `consecutive_readers_` are incremented. -/
def admit_reader (m : RWMutex) : RWMutex :=
  { m with
    mutex_ := { m.mutex_ with shared := m.mutex_.shared + 1 }
    active_readers_ := m.active_readers_ + 1
    consecutive_readers_ := m.consecutive_readers_ + 1 }

/-- Modelled from the spec: the missing body of `lock_shared`.  The call completes
when the admission rule holds; `none` stands for a caller that stays blocked. -/
def lock_shared (policy : RWMutex → Bool) (m : RWMutex) : Option RWMutex :=
  if m.admits_reader policy then some m.admit_reader else none

/-- Modelled from the spec: the missing body of `try_lock_shared`.  It returns false
and changes nothing when the admission rule does not hold, and otherwise returns true
with the updates of an admission. -/
def try_lock_shared (policy : RWMutex → Bool) (m : RWMutex) : Bool × RWMutex :=
  if m.admits_reader policy then (true, m.admit_reader) else (false, m)

/-- Modelled from the spec: the missing body of `unlock_shared`, called by a thread
that holds shared access (`none` when no thread does): shared access is released and
`active_readers_` is decremented. -/
def unlock_shared (m : RWMutex) : Option RWMutex :=
  if 0 < m.mutex_.shared then
    some { m with
      mutex_ := { m.mutex_ with shared := m.mutex_.shared - 1 }
      active_readers_ := m.active_readers_ - 1 }
  else none

/-- Modelled from the spec: the first step of the missing body of `lock`, which
increments `waiting_writers_` immediately. -/
def lock_enter (m : RWMutex) : RWMutex :=
  { m with waiting_writers_ := m.waiting_writers_ + 1 }

/-- Modelled from the spec: the second step of the missing body of `lock`, for a
writer that has entered.  It completes when all readers have released and the
underlying primitive grants exclusive access (`none` stands for a writer that stays
blocked); it then decrements `waiting_writers_` and resets `consecutive_readers_`. -/
def lock_admit (m : RWMutex) : Option RWMutex :=
  if 0 < m.waiting_writers_ ∧ m.active_readers_ = 0 ∧ m.mutex_.shared = 0 ∧
      m.mutex_.exclusive = false then
    some { m with
      mutex_ := { m.mutex_ with exclusive := true }
      waiting_writers_ := m.waiting_writers_ - 1
      consecutive_readers_ := 0 }
  else none

/-- Modelled from the spec: the missing body of `try_lock`.  It returns true, taking
exclusive access, when no reader and no writer holds the lock; otherwise it returns
false and changes nothing. -/
def try_lock (m : RWMutex) : Bool × RWMutex :=
  if m.mutex_.shared = 0 ∧ m.mutex_.exclusive = false then
    (true, { m with mutex_ := { m.mutex_ with exclusive := true } })
  else (false, m)

/-- Modelled from the spec: the missing body of `unlock`, called by the thread that
holds exclusive access (`none` when no thread does): exclusive access is released. -/
def unlock (m : RWMutex) : Option RWMutex :=
  if m.mutex_.exclusive then some { m with mutex_ := { m.mutex_ with exclusive := false } }
  else none

end RWMutex

/-- One atomic step of some thread on the lock: a call of a method, with `lock` in its
two steps. -/
inductive LockCall where
  | lock_shared
  | try_lock_shared
  | unlock_shared
  | lock_enter
  | lock_admit
  | try_lock
  | unlock
  deriving DecidableEq, Repr

/-- The lock after one step; `none` when the step cannot be taken in this state. -/
def RWMutex.step (policy : RWMutex → Bool) (m : RWMutex) : LockCall → Option RWMutex
  | LockCall.lock_shared => m.lock_shared policy
  | LockCall.try_lock_shared => some (m.try_lock_shared policy).2
  | LockCall.unlock_shared => m.unlock_shared
  | LockCall.lock_enter => some m.lock_enter
  | LockCall.lock_admit => m.lock_admit
  | LockCall.try_lock => some m.try_lock.2
  | LockCall.unlock => m.unlock

/-- The lock after a sequence of steps of any threads, first to last. -/
def RWMutex.run (policy : RWMutex → Bool) (m : RWMutex) : List LockCall → Option RWMutex
  | [] => some m
  | call :: calls =>
    match m.step policy call with
    | none => none
    | some m2 => RWMutex.run policy m2 calls

/-- The invariant of the lock: `active_readers_` counts the threads that hold shared
access, and shared and exclusive access are not held together. -/
def RWMutex.Inv (m : RWMutex) : Prop :=
  m.active_readers_ = (m.mutex_.shared : Int) ∧
    ¬ (m.mutex_.exclusive = true ∧ 0 < m.mutex_.shared)

/-! ## The method bodies as guarded programs -/

/-- What the executing thread holds on `mutex_`. -/
inductive Held where
  | nothing
  | shared
  | exclusive
  deriving DecidableEq, Repr

/-- The lock guard a method body opens with: `util::SharedLock lock(mutex_)` or
`util::ExclusiveLock lock(mutex_)`.  Its constructor acquires the lock and its
destructor releases it when the body is left, on every return. -/
inductive Guard where
  | SharedLock
  | ExclusiveLock
  deriving DecidableEq, Repr

/-- The statements of the method bodies of `KVStore`, after the guard. -/
inductive Stmt (K V : Type) where
  /-- Statement `auto it = data_.find(key);`. -/
  | find (key : K)
  /-- Statement `if (it != data_.end()) return it->second;`. -/
  | return_second_if_found
  /-- Statement `return nullopt;`. -/
  | return_nullopt
  /-- Statement `data_[key] = value;`. -/
  | assign (key : K) (value : V)
  /-- Statement `if (it == data_.end()) return false;`. -/
  | return_false_if_end
  /-- Statement `data_.erase(it);`. -/
  | erase_it
  /-- Statement `version_.fetch_add(1, memory_order_relaxed);`. -/
  | fetch_add
  /-- Statement `return true;`. -/
  | return_true
  /-- Statement `uint64_t ver = version_.load(memory_order_acquire);`. -/
  | load
  /-- Statement `return make_shared<Snapshot<...>>(data_, ver);`. -/
  | return_snapshot
  /-- Statement `return data_.size();`. -/
  | return_size
  /-- Statement `return data_.empty();`. -/
  | return_empty

/-- What a method returns. -/
inductive Ret (K V : Type) where
  | void
  | value (o : Option V)
  | bool (b : Bool)
  | snapshot (S : Snapshot K V)
  | size (n : Nat)

/-- One executed step of a method: the call on the mutex or the access made, what the
thread holds on the mutex right after it, and `data_` and `version_` right after it. -/
structure Step (K V : Type) where
  event : Event
  held : Held
  data_ : Container K V
  version_ : Nat

/-- The thread that executes a method on a store: the store's `data_` and `version_`,
what the thread holds on `mutex_`, its locals `it` and `ver`, and the steps it has
executed so far. -/
structure Frame (K V : Type) where
  data_ : Container K V
  version_ : Nat
  held : Held
  it : Nat
  ver : Nat
  steps : List (Step K V)

namespace Frame

variable {K V : Type} [DecidableEq K]

/-- A thread about to call a method on the store `s`: it holds nothing. -/
def enter (s : KVStore K V) : Frame K V := ⟨s.data_, s.version_, Held.nothing, 0, 0, []⟩

/-- The step just executed is added to the steps, with the state it left. -/
def record (f : Frame K V) (e : Event) : Frame K V :=
  { f with steps := f.steps ++ [⟨e, f.held, f.data_, f.version_⟩] }

/-- The guard's constructor: `mutex_.lock_shared()` or `mutex_.lock()`.  A thread that
already holds the mutex does not get past it (`none`). -/
def acquire (f : Frame K V) : Guard → Option (Frame K V)
  | Guard.SharedLock =>
    if f.held = Held.nothing then
      some ({ f with held := Held.shared }.record Event.lock_shared)
    else none
  | Guard.ExclusiveLock =>
    if f.held = Held.nothing then
      some ({ f with held := Held.exclusive }.record Event.lock)
    else none

/-- The guard's destructor: `mutex_.unlock_shared()` or `mutex_.unlock()`, by a thread
that holds the mutex in that mode (`none` otherwise). -/
def release (f : Frame K V) : Guard → Option (Frame K V)
  | Guard.SharedLock =>
    if f.held = Held.shared then
      some ({ f with held := Held.nothing }.record Event.unlock_shared)
    else none
  | Guard.ExclusiveLock =>
    if f.held = Held.exclusive then
      some ({ f with held := Held.nothing }.record Event.unlock)
    else none

/-- A read of `data_` or `version_`, which needs the mutex held in some mode: `none`
when the thread holds nothing. -/
def reading (f : Frame K V) (e : Event) (next : Frame K V → Frame K V) :
    Option (Frame K V) :=
  if f.held = Held.nothing then none else some ((next f).record e)

/-- A write of `data_` or `version_`, which needs the mutex held exclusively: `none`
otherwise. -/
def writing (f : Frame K V) (e : Event) (next : Frame K V → Frame K V) :
    Option (Frame K V) :=
  if f.held = Held.exclusive then some ((next f).record e) else none

/-- One statement: the thread afterwards and, when the statement returns, the value
returned; `none` when the statement touches `data_` or `version_` without the mutex
held as needed. -/
def exec (f : Frame K V) : Stmt K V → Option (Frame K V × Option (Ret K V))
  | Stmt.find key =>
    (f.reading Event.data_read (fun g => { g with it := g.data_.find key })).map
      (fun g => (g, none))
  | Stmt.return_second_if_found =>
    (f.reading Event.data_read id).map
      (fun g => (g, if g.it ≠ g.data_.cend then
        some (Ret.value ((g.data_.deref g.it).map Prod.snd)) else none))
  | Stmt.return_nullopt => some (f, some (Ret.value none))
  | Stmt.assign key value =>
    (f.writing Event.data_write (fun g => { g with data_ := g.data_.assign key value })).map
      (fun g => (g, none))
  | Stmt.return_false_if_end =>
    (f.reading Event.data_read id).map
      (fun g => (g, if g.it = g.data_.cend then some (Ret.bool false) else none))
  | Stmt.erase_it =>
    (f.writing Event.data_write (fun g => { g with data_ := g.data_.erase g.it })).map
      (fun g => (g, none))
  | Stmt.fetch_add =>
    (f.writing Event.version_fetch_add
      (fun g => { g with version_ := kvstore.fetch_add g.version_ 1 })).map
      (fun g => (g, none))
  | Stmt.return_true => some (f, some (Ret.bool true))
  | Stmt.load =>
    (f.reading Event.version_load (fun g => { g with ver := g.version_ })).map
      (fun g => (g, none))
  | Stmt.return_snapshot =>
    (f.reading Event.data_read id).map
      (fun g => (g, some (Ret.snapshot ⟨g.data_, g.ver⟩)))
  | Stmt.return_size =>
    (f.reading Event.data_read id).map (fun g => (g, some (Ret.size g.data_.size)))
  | Stmt.return_empty =>
    (f.reading Event.data_read id).map (fun g => (g, some (Ret.bool g.data_.empty)))

/-- The statements of a body in order, up to the first one that returns; a body that
runs off its end returns nothing. -/
def runBody (f : Frame K V) : List (Stmt K V) → Option (Frame K V × Ret K V)
  | [] => some (f, Ret.void)
  | st :: rest =>
    match f.exec st with
    | none => none
    | some (g, some r) => some (g, r)
    | some (g, none) => runBody g rest

/-- A method call: the guard is constructed, the body runs to its return, and the
guard is destroyed. -/
def call (f : Frame K V) (guard : Guard) (body : List (Stmt K V)) :
    Option (Frame K V × Ret K V) :=
  match f.acquire guard with
  | none => none
  | some f1 =>
    match f1.runBody body with
    | none => none
    | some (f2, r) =>
      match f2.release guard with
      | none => none
      | some f3 => some (f3, r)

end Frame

/-- The body of `KVStore::get` after its guard. -/
def KVStore.getBody {K V : Type} (key : K) : List (Stmt K V) :=
  [Stmt.find key, Stmt.return_second_if_found, Stmt.return_nullopt]

/-- The body of `KVStore::put` after its guard. -/
def KVStore.putBody {K V : Type} (key : K) (value : V) : List (Stmt K V) :=
  [Stmt.assign key value, Stmt.fetch_add]

/-- The body of `KVStore::erase` after its guard. -/
def KVStore.eraseBody {K V : Type} (key : K) : List (Stmt K V) :=
  [Stmt.find key, Stmt.return_false_if_end, Stmt.erase_it, Stmt.fetch_add,
    Stmt.return_true]

/-- The body of `KVStore::snapshot` after its guard. -/
def KVStore.snapshotBody {K V : Type} : List (Stmt K V) :=
  [Stmt.load, Stmt.return_snapshot]

/-- The body of `KVStore::size` after its guard. -/
def KVStore.sizeBody {K V : Type} : List (Stmt K V) := [Stmt.return_size]

/-- The body of `KVStore::empty` after its guard. -/
def KVStore.emptyBody {K V : Type} : List (Stmt K V) := [Stmt.return_empty]

/-- The events of the steps a thread has executed, in order. -/
def Frame.events {K V : Type} (f : Frame K V) : List Event := f.steps.map Step.event

/-- Every access to `data_` or `version_` among the steps was made with the mutex
held, and every write with the mutex held exclusively. -/
def Frame.accessesUnderLock {K V : Type} (f : Frame K V) : Prop :=
  ∀ st ∈ f.steps,
    (st.event = Event.data_read ∨ st.event = Event.version_load → st.held ≠ Held.nothing) ∧
    (st.event = Event.data_write ∨ st.event = Event.version_fetch_add →
      st.held = Held.exclusive)

/-! ## Streams of readers and of writers on the lock -/

end kvstore

/-! ## Lookup in the entry sequence -/

namespace kvstore

section Entries

variable {K V : Type} [DecidableEq K]

theorem lookupEntries_nil (key : K) : lookupEntries ([] : List (K × V)) key = none := by
  simp [lookupEntries]

theorem lookupEntries_cons (e : K × V) (t : List (K × V)) (key : K) :
    lookupEntries (e :: t) key = if e.1 = key then some e.2 else lookupEntries t key := by
  by_cases h : e.1 = key
  · simp [lookupEntries, List.findIdx_cons, h]
  · have h1 : (e :: t).findIdx (fun e => decide (e.1 = key)) =
        t.findIdx (fun e => decide (e.1 = key)) + 1 := by
      simp [List.findIdx_cons, h]
    simp only [lookupEntries, h1, h, if_false, List.length_cons, List.getElem?_cons_succ,
      ne_eq, add_left_inj]

theorem lookupEntries_eq_none_iff (l : List (K × V)) (key : K) :
    lookupEntries l key = none ↔ key ∉ l.map Prod.fst := by
  induction l with
  | nil => simp [lookupEntries_nil]
  | cons e t ih =>
    rw [lookupEntries_cons]
    by_cases h : e.1 = key
    · simp [h]
    · have h2 : ¬ key = e.1 := fun h3 => h h3.symm
      simp only [h, if_false, ih, List.map_cons, List.mem_cons, h2, false_or]

theorem lookupEntries_of_mem (l : List (K × V)) (hl : (l.map Prod.fst).Nodup)
    (key : K) (value : V) (hm : (key, value) ∈ l) : lookupEntries l key = some value := by
  induction l with
  | nil => simp at hm
  | cons e t ih =>
    rw [lookupEntries_cons]
    rw [List.map_cons, List.nodup_cons] at hl
    rcases List.mem_cons.mp hm with h | h
    · subst h
      simp
    · have hk : key ∈ t.map Prod.fst := List.mem_map.mpr ⟨(key, value), h, rfl⟩
      have hne : ¬ e.1 = key := fun h3 => hl.1 (h3 ▸ hk)
      simp only [hne, if_false]
      exact ih hl.2 h

theorem mem_of_lookupEntries (l : List (K × V)) (key : K) (value : V)
    (h : lookupEntries l key = some value) : (key, value) ∈ l := by
  induction l with
  | nil => simp [lookupEntries_nil] at h
  | cons e t ih =>
    rw [lookupEntries_cons] at h
    by_cases hk : e.1 = key
    · simp only [hk, if_true, Option.some.injEq] at h
      have : e = (key, value) := Prod.ext hk h
      simp [this]
    · simp only [hk, if_false] at h
      exact List.mem_cons_of_mem _ (ih h)

theorem findIdx_key_eq_length_iff (l : List (K × V)) (key : K) :
    l.findIdx (fun e => decide (e.1 = key)) = l.length ↔ lookupEntries l key = none := by
  constructor
  · intro h
    simp [lookupEntries, h]
  · intro h
    by_contra hne
    have hlt : l.findIdx (fun e => decide (e.1 = key)) < l.length :=
      lt_of_le_of_ne (List.findIdx_le_length _) hne
    simp [lookupEntries, hne, List.getElem?_eq_getElem hlt] at h

theorem lookupEntries_assign (l : List (K × V)) (key : K) (value : V) (k : K) :
    lookupEntries (assignEntries key value l) k =
      if key = k then some value else lookupEntries l k := by
  induction l with
  | nil => simp [assignEntries, lookupEntries_cons, lookupEntries_nil]
  | cons e t ih =>
    by_cases h : e.1 = key
    · by_cases hk : key = k
      · simp [assignEntries, lookupEntries_cons, h, hk]
      · have : ¬ e.1 = k := fun h3 => hk (h ▸ h3)
        simp [assignEntries, lookupEntries_cons, h, hk]
    · by_cases hk : key = k
      · subst hk
        simp [assignEntries, lookupEntries_cons, h, ih]
      · simp [assignEntries, lookupEntries_cons, h, hk, ih]

theorem lookupEntries_eraseIdx_find (l : List (K × V)) (hl : (l.map Prod.fst).Nodup)
    (key : K) (k : K) :
    lookupEntries (l.eraseIdx (l.findIdx (fun e => decide (e.1 = key)))) k =
      if key = k then none else lookupEntries l k := by
  induction l with
  | nil => simp [lookupEntries_nil]
  | cons e t ih =>
    rw [List.map_cons, List.nodup_cons] at hl
    by_cases h : e.1 = key
    · have h0 : (e :: t).findIdx (fun e => decide (e.1 = key)) = 0 := by
        simp [List.findIdx_cons, h]
      rw [h0, List.eraseIdx_cons_zero, lookupEntries_cons]
      by_cases hk : key = k
      · subst hk
        simp only [if_true]
        exact (lookupEntries_eq_none_iff t key).mpr (h ▸ hl.1)
      · have : ¬ e.1 = k := fun h3 => hk (h ▸ h3)
        simp [hk, this]
    · have h1 : (e :: t).findIdx (fun e => decide (e.1 = key)) =
          t.findIdx (fun e => decide (e.1 = key)) + 1 := by
        simp [List.findIdx_cons, h]
      rw [h1, List.eraseIdx_cons_succ, lookupEntries_cons, lookupEntries_cons, ih hl.2]
      by_cases hk : key = k
      · have : ¬ e.1 = k := fun h3 => h (h3.trans hk.symm)
        simp [hk, this]
      · simp [hk]

end Entries

end kvstore

/-! ## The operations in terms of the entry sequence -/

namespace kvstore

section Frame

theorem KVStore.snapshot_fst {K V : Type} (s : KVStore K V) : s.snapshot.1 = ⟨s.data_, s.version_⟩ := rfl

theorem KVStore.snapshot_fst_version {K V : Type} (s : KVStore K V) :
    s.snapshot.1.version = s.version_ := rfl

theorem KVStore.snapshot_data {K V : Type} (s : KVStore K V) : s.snapshot.2.data_ = s.data_ := rfl

theorem KVStore.snapshot_version {K V : Type} (s : KVStore K V) : s.snapshot.2.version_ = s.version_ := rfl

theorem KVStore.size_data {K V : Type} (s : KVStore K V) : s.size.2.data_ = s.data_ := rfl

theorem KVStore.size_version {K V : Type} (s : KVStore K V) : s.size.2.version_ = s.version_ := rfl

theorem KVStore.empty_data {K V : Type} (s : KVStore K V) : s.empty.2.data_ = s.data_ := rfl

theorem KVStore.empty_version {K V : Type} (s : KVStore K V) : s.empty.2.version_ = s.version_ := rfl

end Frame

section Basic

variable {K V : Type} [DecidableEq K]

theorem Snapshot.get_eq (S : Snapshot K V) (key : K) :
    S.get key = lookupEntries S.data_.entries key := rfl

theorem KVStore.get_fst (s : KVStore K V) (key : K) :
    (s.get key).1 = lookupEntries s.data_.entries key := by
  simp only [KVStore.get, KVStore.emit, Container.find, Container.cend, Container.deref,
    lookupEntries]
  split <;> rfl

theorem KVStore.get_data (s : KVStore K V) (key : K) : (s.get key).2.data_ = s.data_ := by
  simp only [KVStore.get, KVStore.emit]
  split <;> rfl

theorem KVStore.get_version (s : KVStore K V) (key : K) :
    (s.get key).2.version_ = s.version_ := by
  simp only [KVStore.get, KVStore.emit]
  split <;> rfl

theorem KVStore.put_data (s : KVStore K V) (key : K) (value : V) :
    (s.put key value).data_ = s.data_.assign key value := rfl

theorem KVStore.put_version (s : KVStore K V) (key : K) (value : V) :
    (s.put key value).version_ = (s.version_ + 1) % 2 ^ 64 := rfl

theorem KVStore.get_put (s : KVStore K V) (key : K) (value : V) (k : K) :
    ((s.put key value).get k).1 = if key = k then some value else (s.get k).1 := by
  rw [KVStore.get_fst, KVStore.get_fst, KVStore.put_data]
  exact lookupEntries_assign s.data_.entries key value k

theorem KVStore.find_eq_cend_iff (s : KVStore K V) (key : K) :
    s.data_.find key = s.data_.cend ↔ key ∉ s.data_.keys := by
  rw [Container.find, Container.cend, findIdx_key_eq_length_iff, lookupEntries_eq_none_iff]
  rfl

theorem KVStore.erase_of_not_mem (s : KVStore K V) (key : K) (h : key ∉ s.data_.keys) :
    (s.erase key).1 = false ∧ (s.erase key).2.data_ = s.data_ ∧
      (s.erase key).2.version_ = s.version_ := by
  have hf := (KVStore.find_eq_cend_iff s key).mpr h
  simp only [KVStore.erase, KVStore.emit, hf, if_true, and_self]

theorem KVStore.erase_of_mem (s : KVStore K V) (key : K) (h : key ∈ s.data_.keys) :
    (s.erase key).1 = true ∧ (s.erase key).2.data_ = s.data_.erase (s.data_.find key) ∧
      (s.erase key).2.version_ = (s.version_ + 1) % 2 ^ 64 := by
  have hf : ¬ s.data_.find key = s.data_.cend := fun h2 =>
    (KVStore.find_eq_cend_iff s key).mp h2 h
  simp only [KVStore.erase, KVStore.emit, hf, if_false, true_and, fetch_add, VERSION_MOD]

theorem KVStore.get_erase (s : KVStore K V) (key : K) (k : K) :
    ((s.erase key).2.get k).1 = if key = k then none else (s.get k).1 := by
  rw [KVStore.get_fst, KVStore.get_fst]
  by_cases h : key ∈ s.data_.keys
  · rw [(KVStore.erase_of_mem s key h).2.1]
    exact lookupEntries_eraseIdx_find s.data_.entries s.data_.unique key k
  · rw [(KVStore.erase_of_not_mem s key h).2.1]
    by_cases hk : key = k
    · subst hk
      simpa using (lookupEntries_eq_none_iff s.data_.entries key).mpr h
    · simp [hk]

theorem KVStore.erase_version_cases (s : KVStore K V) (key : K) :
    (s.erase key).2.version_ = s.version_ ∨
      (s.erase key).2.version_ = (s.version_ + 1) % 2 ^ 64 := by
  by_cases h : key ∈ s.data_.keys
  · exact Or.inr (KVStore.erase_of_mem s key h).2.2
  · exact Or.inl (KVStore.erase_of_not_mem s key h).2.2

end Basic

end kvstore

/-! ## Sequences of operations -/

namespace kvstore

section Runs

variable {K V : Type} [DecidableEq K]

theorem Client.run_append (c : Client K V) (a b : List (Op K V)) :
    c.run (a ++ b) = (c.run a).run b := by
  induction a generalizing c with
  | nil => rfl
  | cons op a ih => exact ih (c.step op)

theorem Client.step_get_of_not_writes (c : Client K V) (op : Op K V) (k : K)
    (h : op.writes k = false) : ((c.step op).store.get k).1 = (c.store.get k).1 := by
  cases op with
  | get key => simp only [Client.step, KVStore.get_fst, KVStore.get_data]
  | put key value =>
    have hk : ¬ key = k := by simpa [Op.writes] using h
    simp only [Client.step, KVStore.get_put, hk, if_false]
  | erase key =>
    have hk : ¬ key = k := by simpa [Op.writes] using h
    simp only [Client.step, KVStore.get_erase, hk, if_false]
  | snapshot => simp only [Client.step, KVStore.get_fst, KVStore.snapshot_data]
  | size => simp only [Client.step, KVStore.get_fst, KVStore.size_data]
  | empty => simp only [Client.step, KVStore.get_fst, KVStore.empty_data]

theorem Client.run_get_of_not_writes (c : Client K V) (ops : List (Op K V)) (k : K)
    (h : ∀ op ∈ ops, op.writes k = false) :
    ((c.run ops).store.get k).1 = (c.store.get k).1 := by
  induction ops generalizing c with
  | nil => rfl
  | cons op ops ih =>
    have h1 := ih (c.step op) (fun o ho => h o (List.mem_cons_of_mem _ ho))
    rw [Client.run, h1]
    exact Client.step_get_of_not_writes c op k (h op (List.mem_cons_self _ _))

theorem Client.step_snaps (c : Client K V) (op : Op K V) :
    ∃ l, (c.step op).snaps = c.snaps ++ l := by
  cases op with
  | snapshot => exact ⟨[c.store.snapshot.1], rfl⟩
  | get key => exact ⟨[], by simp [Client.step]⟩
  | put key value => exact ⟨[], by simp [Client.step]⟩
  | erase key => exact ⟨[], by simp [Client.step]⟩
  | size => exact ⟨[], by simp [Client.step]⟩
  | empty => exact ⟨[], by simp [Client.step]⟩

theorem Client.run_snaps (c : Client K V) (ops : List (Op K V)) :
    ∃ l, (c.run ops).snaps = c.snaps ++ l := by
  induction ops generalizing c with
  | nil => exact ⟨[], by simp [Client.run]⟩
  | cons op ops ih =>
    obtain ⟨l1, h1⟩ := Client.step_snaps c op
    obtain ⟨l2, h2⟩ := ih (c.step op)
    exact ⟨l1 ++ l2, by rw [Client.run, h2, h1, List.append_assoc]⟩

theorem Client.run_snaps_getElem (c : Client K V) (ops : List (Op K V)) (i : Nat)
    (S : Snapshot K V) (h : c.snaps[i]? = some S) : (c.run ops).snaps[i]? = some S := by
  obtain ⟨l, hl⟩ := Client.run_snaps c ops
  have hi : i < c.snaps.length := (List.getElem?_eq_some_iff.mp h).1
  rw [hl, List.getElem?_append_left hi]
  exact h

theorem Client.snaps_origin (c : Client K V) (ops : List (Op K V)) (i : Nat)
    (S : Snapshot K V) (h : (c.run ops).snaps[i]? = some S) :
    c.snaps[i]? = some S ∨
      ∃ pre post, ops = pre ++ Op.snapshot :: post ∧ (c.run pre).snaps.length = i ∧
        S.data_ = (c.run pre).store.data_ ∧ S.version_ = (c.run pre).store.version_ := by
  induction ops generalizing c with
  | nil => exact Or.inl h
  | cons op ops ih =>
    rcases ih (c.step op) h with h1 | ⟨pre, post, hops, hlen, hd, hv⟩
    · cases op with
      | snapshot =>
        by_cases hi : i < c.snaps.length
        · left
          simpa [Client.step, List.getElem?_append_left hi] using h1
        · right
          have h2 : (c.snaps ++ [c.store.snapshot.1])[i]? = some S := h1
          have hlt : i < (c.snaps ++ [c.store.snapshot.1]).length :=
            (List.getElem?_eq_some_iff.mp h2).1
          have hie : i = c.snaps.length := by
            simp only [List.length_append, List.length_singleton] at hlt
            omega
          subst hie
          have hS : c.store.snapshot.1 = S := by simpa using h2
          refine ⟨[], ops, rfl, rfl, ?_, ?_⟩
          · rw [← hS]; rfl
          · rw [← hS]; rfl
      | get key => exact Or.inl h1
      | put key value => exact Or.inl h1
      | erase key => exact Or.inl h1
      | size => exact Or.inl h1
      | empty => exact Or.inl h1
    · exact Or.inr ⟨op :: pre, post, by rw [hops]; rfl, hlen, hd, hv⟩

theorem Client.step_version (c : Client K V) (op : Op K V) :
    (c.step op).store.version_ =
      if op.bumps c.store then (c.store.version_ + 1) % 2 ^ 64 else c.store.version_ := by
  cases op with
  | get key => simp only [Client.step, Op.bumps, KVStore.get_version]; rfl
  | put key value => simp only [Client.step, Op.bumps, KVStore.put_version]; rfl
  | erase key =>
    by_cases h : key ∈ c.store.data_.keys
    · simp only [Client.step, Op.bumps, h, decide_True, if_true]
      exact (KVStore.erase_of_mem c.store key h).2.2
    · simp only [Client.step, Op.bumps, h, decide_False]
      exact (KVStore.erase_of_not_mem c.store key h).2.2
  | snapshot => rfl
  | size => rfl
  | empty => rfl

theorem Client.count_le_length (counted : KVStore K V → Op K V → Bool) (c : Client K V)
    (ops : List (Op K V)) : Client.count counted c ops ≤ ops.length := by
  induction ops generalizing c with
  | nil => simp [Client.count]
  | cons op ops ih =>
    have := ih (c.step op)
    simp only [Client.count, List.length_cons]
    split <;> omega

theorem Client.run_version (c : Client K V) (ops : List (Op K V))
    (h : c.store.version_ < 2 ^ 64) :
    (c.run ops).store.version_ = (c.store.version_ + Client.count Op.bumps c ops) % 2 ^ 64 := by
  induction ops generalizing c with
  | nil =>
    simp only [Client.run, Client.count, Nat.add_zero]
    exact (Nat.mod_eq_of_lt h).symm
  | cons op ops ih =>
    have hs := Client.step_version c op
    have hlt : (c.step op).store.version_ < 2 ^ 64 := by
      rw [hs]
      split
      · exact Nat.mod_lt _ (by norm_num)
      · exact h
    rw [Client.run, ih (c.step op) hlt, hs, Client.count]
    by_cases hb : op.bumps c.store = true
    · simp only [hb, if_true]
      omega
    · simp only [hb, if_false, Bool.false_eq_true]
      omega

theorem Client.count_bumps_replicate_put (c : Client K V) (n : Nat) (key : K) (value : V) :
    Client.count Op.bumps c (List.replicate n (Op.put key value)) = n := by
  induction n generalizing c with
  | zero => rfl
  | succ n ih =>
    rw [List.replicate_succ, Client.count, ih]
    simp only [Op.bumps, if_true]
    omega

theorem Client.run_replicate_put_version (n : Nat) (key : K) (value : V) :
    ((Client.start : Client K V).run (List.replicate n (Op.put key value))).store.version_ =
      n % 2 ^ 64 := by
  rw [Client.run_version _ _ (by simp [Client.start, KVStore.fresh]),
    Client.count_bumps_replicate_put]
  simp [Client.start, KVStore.fresh]

theorem Client.run_replicate_put_get (n : Nat) (key : K) (value : V) :
    (((Client.start : Client K V).run
      (List.replicate (n + 1) (Op.put key value))).store.get key).1 = some value := by
  rw [List.replicate_succ', Client.run_append]
  simp only [Client.run, Client.step, KVStore.get_put, if_true]

theorem KVStore.mem_keys_iff_get (s : KVStore K V) (key : K) :
    key ∈ s.data_.keys ↔ (s.get key).1 ≠ none := by
  rw [KVStore.get_fst, ne_eq, lookupEntries_eq_none_iff, not_not]
  rfl

theorem KVStore.afterPuts_version (n : Nat) (key : K) (value : V) :
    (KVStore.afterPuts n key value).version_ = n % 2 ^ 64 :=
  Client.run_replicate_put_version n key value

theorem KVStore.afterPuts_mem (n : Nat) (key : K) (value : V) :
    key ∈ (KVStore.afterPuts (n + 1) key value).data_.keys := by
  rw [KVStore.mem_keys_iff_get]
  have h : ((KVStore.afterPuts (n + 1) key value).get key).1 = some value :=
    Client.run_replicate_put_get n key value
  rw [h]
  exact Option.some_ne_none value

theorem Client.step_data_congr (c c2 : Client K V) (op : Op K V)
    (h : c.store.data_ = c2.store.data_) :
    (c.step op).store.data_ = (c2.step op).store.data_ := by
  cases op with
  | get key => simp only [Client.step, KVStore.get_data, h]
  | put key value => simp only [Client.step, KVStore.put_data, h]
  | erase key =>
    by_cases hk : key ∈ c.store.data_.keys
    · have hk2 : key ∈ c2.store.data_.keys := h ▸ hk
      simp only [Client.step, (KVStore.erase_of_mem c.store key hk).2.1,
        (KVStore.erase_of_mem c2.store key hk2).2.1, h]
    · have hk2 : key ∉ c2.store.data_.keys := h ▸ hk
      simp only [Client.step, (KVStore.erase_of_not_mem c.store key hk).2.1,
        (KVStore.erase_of_not_mem c2.store key hk2).2.1, h]
  | snapshot => exact h
  | size => exact h
  | empty => exact h

theorem Client.bumps_congr (s s2 : KVStore K V) (op : Op K V) (h : s.data_ = s2.data_) :
    op.bumps s = op.bumps s2 := by
  cases op <;> simp [Op.bumps, h]

theorem Client.count_bumps_congr (c c2 : Client K V) (ops : List (Op K V))
    (h : c.store.data_ = c2.store.data_) :
    Client.count Op.bumps c ops = Client.count Op.bumps c2 ops := by
  induction ops generalizing c c2 with
  | nil => rfl
  | cons op ops ih =>
    simp only [Client.count, Client.bumps_congr c.store c2.store op h,
      ih (c.step op) (c2.step op) (Client.step_data_congr c c2 op h)]

end Runs

/-! ## The claims -/

section Claims

variable {K V : Type} [DecidableEq K]

/-- C1. Sequential consistency on one thread: after any sequence of calls on a freshly
constructed store, `get(k)` returns `v` when the last `put`/`erase` naming `k` is
`put(k, v)`, is absent when it is `erase(k)`, and is absent when no `put`/`erase`
names `k`; and in any state, a call that is not a `put`/`erase` on `k` leaves the
result of `get(k)` as it was. -/
theorem C1_get_reflects_last_write (k : K) :
    (∀ (pre post : List (Op K V)) (v : V), (∀ op ∈ post, op.writes k = false) →
      (((Client.start : Client K V).run (pre ++ Op.put k v :: post)).store.get k).1 =
        some v) ∧
    (∀ (pre post : List (Op K V)), (∀ op ∈ post, op.writes k = false) →
      (((Client.start : Client K V).run (pre ++ Op.erase k :: post)).store.get k).1 =
        none) ∧
    (∀ (ops : List (Op K V)), (∀ op ∈ ops, op.writes k = false) →
      (((Client.start : Client K V).run ops).store.get k).1 = none) ∧
    (∀ (c : Client K V) (op : Op K V), op.writes k = false →
      ((c.step op).store.get k).1 = (c.store.get k).1) := by
  refine ⟨?_, ?_, ?_, ?_⟩
  · intro pre post v h
    rw [Client.run_append, Client.run, Client.run_get_of_not_writes _ post k h]
    simp only [Client.step, KVStore.get_put, if_true]
  · intro pre post h
    rw [Client.run_append, Client.run, Client.run_get_of_not_writes _ post k h]
    simp only [Client.step, KVStore.get_erase, if_true]
  · intro ops h
    rw [Client.run_get_of_not_writes _ ops k h]
    rfl
  · intro c op h
    exact Client.step_get_of_not_writes c op k h

/-- C2. Snapshot isolation: a client that takes a snapshot `S` and then performs any
sequence of calls on the store still holds the same snapshot, and `S.get(k)`,
`S.contains(k)`, `S.version()`, `S.size()` and `S.empty()` read on the snapshot it holds
afterwards are what they were right after `S` was produced. -/
theorem C2_snapshot_isolation (c : Client K V) (ops : List (Op K V)) (k : K) :
    (c.step Op.snapshot).snaps[c.snaps.length]? = some c.store.snapshot.1 ∧
    ((c.step Op.snapshot).run ops).snaps[c.snaps.length]? = some c.store.snapshot.1 ∧
    (((c.step Op.snapshot).run ops).snaps[c.snaps.length]?).map (fun S => S.get k) =
      some (c.store.snapshot.1.get k) ∧
    (((c.step Op.snapshot).run ops).snaps[c.snaps.length]?).map (fun S => S.contains k) =
      some (c.store.snapshot.1.contains k) ∧
    (((c.step Op.snapshot).run ops).snaps[c.snaps.length]?).map (fun S => S.version) =
      some c.store.snapshot.1.version ∧
    (((c.step Op.snapshot).run ops).snaps[c.snaps.length]?).map (fun S => S.size) =
      some c.store.snapshot.1.size ∧
    (((c.step Op.snapshot).run ops).snaps[c.snaps.length]?).map (fun S => S.empty) =
      some c.store.snapshot.1.empty := by
  have h0 : (c.step Op.snapshot).snaps[c.snaps.length]? = some c.store.snapshot.1 := by
    simp [Client.step]
  have h1 := Client.run_snaps_getElem (c.step Op.snapshot) ops _ _ h0
  refine ⟨h0, h1, ?_, ?_, ?_, ?_, ?_⟩ <;> rw [h1] <;> rfl

/-- C3. `snapshot()` captures the current state as one consistent pair: the snapshot
has the store's container and version, so `version()`, `get(k)` for every key and
`size()` agree with the store, and the call leaves the store's container and version
unchanged.  Hence, along any sequence of calls from a fresh store, the snapshot the
client holds at position `i` was produced by a `snapshot` call of the sequence, and its
(data, version) pair is the store's state right before that call. -/
theorem C3_snapshot_captures_state (s : KVStore K V) :
    s.snapshot.1.data_ = s.data_ ∧
    s.snapshot.1.version = s.version_ ∧
    (∀ k : K, s.snapshot.1.get k = (s.get k).1) ∧
    s.snapshot.1.size = s.size.1 ∧
    s.snapshot.2.data_ = s.data_ ∧
    s.snapshot.2.version_ = s.version_ ∧
    (∀ (ops : List (Op K V)) (i : Nat) (S : Snapshot K V),
      ((Client.start : Client K V).run ops).snaps[i]? = some S →
      ∃ pre post, ops = pre ++ Op.snapshot :: post ∧
        ((Client.start : Client K V).run pre).snaps.length = i ∧
        S.data_ = ((Client.start : Client K V).run pre).store.data_ ∧
        S.version_ = ((Client.start : Client K V).run pre).store.version_) := by
  refine ⟨rfl, rfl, ?_, rfl, rfl, rfl, ?_⟩
  · intro k
    rw [KVStore.get_fst]
    rfl
  · intro ops i S h
    rcases Client.snaps_origin Client.start ops i S h with h1 | h1
    · simp [Client.start] at h1
    · exact h1

/-- C4 (counterexample). After `2 ^ 64 - 1` calls `put("a", 1)` on a fresh store the
version is `2 ^ 64 - 1`; one more `put` leaves the version at 0, which is not the
version before plus 1. -/
theorem C4_put_version_counterexample :
    (KVStore.afterPuts (2 ^ 64 - 1) "a" 1).version_ = 2 ^ 64 - 1 ∧
    ((KVStore.afterPuts (2 ^ 64 - 1) "a" 1).put "a" 1).version_ = 0 ∧
    ((KVStore.afterPuts (2 ^ 64 - 1) "a" 1).put "a" 1).version_ ≠
      (KVStore.afterPuts (2 ^ 64 - 1) "a" 1).version_ + 1 := by
  have h : (KVStore.afterPuts (2 ^ 64 - 1) "a" 1).version_ = 2 ^ 64 - 1 :=
    (KVStore.afterPuts_version (2 ^ 64 - 1) "a" 1).trans (by norm_num)
  have h2 : ((KVStore.afterPuts (2 ^ 64 - 1) "a" 1).put "a" 1).version_ = 0 :=
    (KVStore.put_version _ "a" 1).trans (by rw [h]; norm_num)
  refine ⟨h, h2, ?_⟩
  rw [h2, h]
  norm_num

/-- C4 (amended). `put` is total and advances the 64-bit version by one modulo
`2 ^ 64`, whether the key is new, mapped to another value, or already mapped to the
value: the version after is the version before plus 1 when the version before is below
`2 ^ 64 - 1`, and 0 when it is `2 ^ 64 - 1`. -/
theorem C4_put_version (s : KVStore K V) (k : K) (v : V) :
    (s.put k v).version_ = (s.version_ + 1) % 2 ^ 64 ∧
    (s.version_ < 2 ^ 64 - 1 → (s.put k v).version_ = s.version_ + 1) ∧
    (s.version_ = 2 ^ 64 - 1 → (s.put k v).version_ = 0) := by
  refine ⟨rfl, ?_, ?_⟩
  · intro h
    rw [KVStore.put_version]
    exact Nat.mod_eq_of_lt (by omega)
  · intro h
    rw [KVStore.put_version, h]
    norm_num

/-- C5. `erase` of a key that is not in the container returns false and leaves the
container (hence every `get` and `size()`) and the version unchanged; on a freshly
constructed store, `erase` of any key returns false and the version stays 0. -/
theorem C5_erase_absent (s : KVStore K V) (k : K) (h : k ∉ s.data_.keys) :
    (s.erase k).1 = false ∧
    (s.erase k).2.data_ = s.data_ ∧
    (∀ k2 : K, ((s.erase k).2.get k2).1 = (s.get k2).1) ∧
    (s.erase k).2.size.1 = s.size.1 ∧
    (s.erase k).2.version_ = s.version_ ∧
    ((KVStore.fresh : KVStore K V).erase k).1 = false ∧
    ((KVStore.fresh : KVStore K V).erase k).2.version_ = 0 := by
  obtain ⟨h1, h2, h3⟩ := KVStore.erase_of_not_mem s k h
  have hf : k ∉ (KVStore.fresh : KVStore K V).data_.keys := by
    simp [KVStore.fresh, Container.nil, Container.keys]
  obtain ⟨f1, _, f3⟩ := KVStore.erase_of_not_mem (KVStore.fresh : KVStore K V) k hf
  refine ⟨h1, h2, ?_, ?_, h3, f1, f3⟩
  · intro k2
    rw [KVStore.get_fst, KVStore.get_fst, h2]
  · show (s.erase k).2.data_.size = s.data_.size
    rw [h2]

/-- C5 (witness). On a fresh store `erase("missing")` returns false, version 0. -/
theorem C5_erase_absent_witness :
    "missing" ∉ (KVStore.fresh : KVStore String Nat).data_.keys ∧
    ((KVStore.fresh : KVStore String Nat).erase "missing").1 = false ∧
    ((KVStore.fresh : KVStore String Nat).erase "missing").2.version_ = 0 :=
  ⟨by decide,
    (C5_erase_absent (KVStore.fresh : KVStore String Nat) "missing" (by decide)).1,
    (C5_erase_absent (KVStore.fresh : KVStore String Nat) "missing"
      (by decide)).2.2.2.2.2.2⟩

/-- C6 (counterexample). In the store reached by `2 ^ 64 - 1` calls `put("a", 1)`,
the key `"a"` is present and `erase("a")` returns true, but the version after is 0 and
not the version before plus 1. -/
theorem C6_erase_present_counterexample :
    "a" ∈ (KVStore.afterPuts (2 ^ 64 - 1) "a" 1).data_.keys ∧
    ((KVStore.afterPuts (2 ^ 64 - 1) "a" 1).erase "a").1 = true ∧
    ((KVStore.afterPuts (2 ^ 64 - 1) "a" 1).erase "a").2.version_ = 0 ∧
    ((KVStore.afterPuts (2 ^ 64 - 1) "a" 1).erase "a").2.version_ ≠
      (KVStore.afterPuts (2 ^ 64 - 1) "a" 1).version_ + 1 := by
  have he : (2 : Nat) ^ 64 - 1 = (2 ^ 64 - 2) + 1 := by norm_num
  have hm : "a" ∈ (KVStore.afterPuts (2 ^ 64 - 1) "a" 1).data_.keys := by
    rw [he]
    exact KVStore.afterPuts_mem (2 ^ 64 - 2) "a" 1
  have hv : (KVStore.afterPuts (2 ^ 64 - 1) "a" 1).version_ = 2 ^ 64 - 1 :=
    (KVStore.afterPuts_version (2 ^ 64 - 1) "a" 1).trans (by norm_num)
  obtain ⟨h1, _, h3⟩ := KVStore.erase_of_mem _ "a" hm
  have h4 : ((KVStore.afterPuts (2 ^ 64 - 1) "a" 1).erase "a").2.version_ = 0 :=
    h3.trans (by rw [hv]; norm_num)
  refine ⟨hm, h1, h4, ?_⟩
  rw [h4, hv]
  norm_num

/-- C6 (amended). `erase` of a key that is in the container returns true, makes
`get` of that key absent, leaves `get` of every other key unchanged, and advances the
version by one modulo `2 ^ 64` (the version before plus 1 when that is below
`2 ^ 64 - 1`).  For every store and key, `erase` returns true exactly when `get` of the
key was present before the call. -/
theorem C6_erase_present (s : KVStore K V) (k : K) (h : k ∈ s.data_.keys) :
    (s.erase k).1 = true ∧
    ((s.erase k).2.get k).1 = none ∧
    (∀ k2 : K, k2 ≠ k → ((s.erase k).2.get k2).1 = (s.get k2).1) ∧
    (s.erase k).2.version_ = (s.version_ + 1) % 2 ^ 64 ∧
    (s.version_ < 2 ^ 64 - 1 → (s.erase k).2.version_ = s.version_ + 1) ∧
    (∀ (s2 : KVStore K V) (k2 : K),
      (s2.erase k2).1 = true ↔ ∃ v, (s2.get k2).1 = some v) := by
  obtain ⟨h1, _, h3⟩ := KVStore.erase_of_mem s k h
  refine ⟨h1, ?_, ?_, h3, ?_, ?_⟩
  · rw [KVStore.get_erase, if_pos rfl]
  · intro k2 hk
    rw [KVStore.get_erase, if_neg (fun h4 => hk h4.symm)]
  · intro hlt
    rw [h3]
    exact Nat.mod_eq_of_lt (by omega)
  · intro s2 k2
    by_cases hm : k2 ∈ s2.data_.keys
    · have hg := (KVStore.mem_keys_iff_get s2 k2).mp hm
      simp only [(KVStore.erase_of_mem s2 k2 hm).1, true_iff]
      exact Option.ne_none_iff_exists'.mp hg
    · have hg : (s2.get k2).1 = none := by
        by_contra hc
        exact hm ((KVStore.mem_keys_iff_get s2 k2).mpr hc)
      simp [(KVStore.erase_of_not_mem s2 k2 hm).1, hg]

/-- C6 (witness). After `put("a", 1)` on a fresh store, `"a"` is present, `erase("a")`
returns true and `get("a")` is absent afterwards. -/
theorem C6_erase_present_witness :
    "a" ∈ ((KVStore.fresh : KVStore String Nat).put "a" 1).data_.keys ∧
    (((KVStore.fresh : KVStore String Nat).put "a" 1).erase "a").1 = true ∧
    ((((KVStore.fresh : KVStore String Nat).put "a" 1).erase "a").2.get "a").1 = none :=
  ⟨by decide,
    (C6_erase_present ((KVStore.fresh : KVStore String Nat).put "a" 1) "a" (by decide)).1,
    (C6_erase_present ((KVStore.fresh : KVStore String Nat).put "a" 1) "a"
      (by decide)).2.1⟩

/-- C7. Round trip: in every store state, `put(k, v)` followed immediately by `get(k)`
returns a present result equal to `v`. -/
theorem C7_put_get_roundtrip (s : KVStore K V) (k : K) (v : V) :
    ((s.put k v).get k).1 = some v := by
  rw [KVStore.get_put, if_pos rfl]

/-- C8 (counterexample). In the store reached by `2 ^ 64 - 1` calls `put("a", 1)`, a
snapshot has version `2 ^ 64 - 1`; after one more `put` the store's version is 0 and so
is the version of the next snapshot: both are smaller than before. -/
theorem C8_version_monotone_counterexample :
    (KVStore.afterPuts (2 ^ 64 - 1) "a" 1).snapshot.1.version = 2 ^ 64 - 1 ∧
    (((KVStore.afterPuts (2 ^ 64 - 1) "a" 1).snapshot.2.put "a" 1).snapshot.1).version = 0 ∧
    ¬ ((KVStore.afterPuts (2 ^ 64 - 1) "a" 1).snapshot.2.version_ ≤
      ((KVStore.afterPuts (2 ^ 64 - 1) "a" 1).snapshot.2.put "a" 1).version_) := by
  have hv : (KVStore.afterPuts (2 ^ 64 - 1) "a" 1).version_ = 2 ^ 64 - 1 :=
    (KVStore.afterPuts_version (2 ^ 64 - 1) "a" 1).trans (by norm_num)
  have h1 : (KVStore.afterPuts (2 ^ 64 - 1) "a" 1).snapshot.2.version_ = 2 ^ 64 - 1 :=
    (KVStore.snapshot_version _).trans hv
  have h2 : ((KVStore.afterPuts (2 ^ 64 - 1) "a" 1).snapshot.2.put "a" 1).version_ = 0 :=
    (KVStore.put_version _ "a" 1).trans (by rw [h1]; norm_num)
  refine ⟨(KVStore.snapshot_fst_version _).trans hv,
    (KVStore.snapshot_fst_version _).trans h2, ?_⟩
  rw [h1, h2]
  norm_num

/-- C8 (amended). The version is non-decreasing as long as the 64-bit counter does not
wrap: from a store with version `v`, after any sequence of calls (get, put, erase,
snapshot, size, empty) of which `n` advance the version (the `put` calls and the
`erase` calls of a present key) with `v + n < 2 ^ 64`, the version is `v + n`, at least
`v`; so `get`, `size`, `empty`, `snapshot` and `erase` of an absent key never lower it,
whatever the version; hence of two `snapshot()` calls with such a sequence between
them, the later snapshot's version is at least the earlier one's. -/
theorem C8_version_monotone (c : Client K V) (ops : List (Op K V))
    (h : c.store.version_ + Client.count Op.bumps c ops < 2 ^ 64) :
    c.store.version_ ≤ (c.run ops).store.version_ ∧
    (c.run ops).store.version_ = c.store.version_ + Client.count Op.bumps c ops ∧
    c.store.snapshot.1.version ≤
      ((c.step Op.snapshot).run ops).store.snapshot.1.version := by
  have key : ∀ c2 : Client K V, c2.store.version_ = c.store.version_ →
      c2.store.data_ = c.store.data_ →
      (c2.run ops).store.version_ = c.store.version_ + Client.count Op.bumps c ops := by
    intro c2 h2 h3
    have hc := Client.count_bumps_congr c2 c ops h3
    rw [Client.run_version c2 ops (by omega), h2, hc, Nat.mod_eq_of_lt h]
  have h1 := key c rfl rfl
  have h2 := key (c.step Op.snapshot) rfl rfl
  refine ⟨by omega, h1, ?_⟩
  show c.store.version_ ≤ ((c.step Op.snapshot).run ops).store.version_
  omega

/-- C8 (witness). A store at version `2 ^ 64 - 2`: after `put("a", 1)`, `get("a")`,
`erase("b")` (absent) and `snapshot()`, one call has advanced the version, which is
now `2 ^ 64 - 1`; the later snapshot has the larger version. -/
theorem C8_version_monotone_witness :
    (⟨⟨Container.nil, 2 ^ 64 - 2, []⟩, []⟩ : Client String Nat).store.version_ +
      Client.count Op.bumps (⟨⟨Container.nil, 2 ^ 64 - 2, []⟩, []⟩ : Client String Nat)
        [Op.put "a" 1, Op.get "a", Op.erase "b", Op.snapshot] < 2 ^ 64 ∧
    ((⟨⟨Container.nil, 2 ^ 64 - 2, []⟩, []⟩ : Client String Nat).run
      [Op.put "a" 1, Op.get "a", Op.erase "b", Op.snapshot]).store.version_ = 2 ^ 64 - 1 ∧
    (⟨⟨Container.nil, 2 ^ 64 - 2, []⟩, []⟩ : Client String Nat).store.version_ ≤
      ((⟨⟨Container.nil, 2 ^ 64 - 2, []⟩, []⟩ : Client String Nat).run
        [Op.put "a" 1, Op.get "a", Op.erase "b", Op.snapshot]).store.version_ ∧
    (⟨⟨Container.nil, 2 ^ 64 - 2, []⟩, []⟩ : Client String Nat).store.snapshot.1.version ≤
      (((⟨⟨Container.nil, 2 ^ 64 - 2, []⟩, []⟩ : Client String Nat).step Op.snapshot).run
        [Op.put "a" 1, Op.get "a", Op.erase "b", Op.snapshot]).store.snapshot.1.version :=
  ⟨by decide, by decide,
    (C8_version_monotone (⟨⟨Container.nil, 2 ^ 64 - 2, []⟩, []⟩ : Client String Nat)
      [Op.put "a" 1, Op.get "a", Op.erase "b", Op.snapshot] (by decide)).1,
    (C8_version_monotone (⟨⟨Container.nil, 2 ^ 64 - 2, []⟩, []⟩ : Client String Nat)
      [Op.put "a" 1, Op.get "a", Op.erase "b", Op.snapshot] (by decide)).2.2⟩

/-- C9 (counterexample). `put("a", 1)` twice on a fresh store: the second `put`
neither inserts a key nor changes a value, so the sequence has one successful mutation
in the words of the data model, yet the version is 2. -/
theorem C9_version_count_counterexample :
    Client.count Op.mutates (Client.start : Client String Nat)
      [Op.put "a" 1, Op.put "a" 1] = 1 ∧
    ((Client.start : Client String Nat).run [Op.put "a" 1, Op.put "a" 1]).store.version_ =
      2 := by
  decide

/-- C9 (amended). After any sequence of calls on a freshly constructed store, the
version equals, modulo `2 ^ 64`, the number of `put` calls of the sequence (whether or
not they changed anything) plus the number of `erase` calls whose key was present; a
call that is neither leaves the version unchanged. -/
theorem C9_version_counts_puts_and_erases (ops : List (Op K V)) :
    ((Client.start : Client K V).run ops).store.version_ =
      Client.count Op.bumps (Client.start : Client K V) ops % 2 ^ 64 ∧
    (∀ (c : Client K V) (op : Op K V), op.bumps c.store = false →
      (c.step op).store.version_ = c.store.version_) := by
  constructor
  · rw [Client.run_version _ _ (by simp [Client.start, KVStore.fresh])]
    simp [Client.start, KVStore.fresh]
  · intro c op h
    rw [Client.step_version, h]
    rfl

/-- C10. Reads have no effect on the store's data: `get(k)`, `size()`, `empty()` and
`snapshot()` each leave the container and the version exactly as they were, and
`get(k)` returns the mapped value when `k` is in the container and is absent when it
is not. -/
theorem C10_reads_have_no_effect (s : KVStore K V) (k : K) :
    ((s.get k).2.data_ = s.data_ ∧ (s.get k).2.version_ = s.version_) ∧
    (s.size.2.data_ = s.data_ ∧ s.size.2.version_ = s.version_) ∧
    (s.empty.2.data_ = s.data_ ∧ s.empty.2.version_ = s.version_) ∧
    (s.snapshot.2.data_ = s.data_ ∧ s.snapshot.2.version_ = s.version_) ∧
    (∀ v : V, (k, v) ∈ s.data_.entries → (s.get k).1 = some v) ∧
    (k ∉ s.data_.keys → (s.get k).1 = none) := by
  refine ⟨⟨KVStore.get_data s k, KVStore.get_version s k⟩, ⟨rfl, rfl⟩, ⟨rfl, rfl⟩,
    ⟨rfl, rfl⟩, ?_, ?_⟩
  · intro v hv
    rw [KVStore.get_fst]
    exact lookupEntries_of_mem s.data_.entries s.data_.unique k v hv
  · intro hk
    rw [KVStore.get_fst]
    exact (lookupEntries_eq_none_iff s.data_.entries k).mpr hk

end Claims

end kvstore

/-! ## The concrete scenario and iteration -/

namespace kvstore

section Scenario

/-- C11. The concrete scenario, step by step on a freshly constructed store:
`put("a", 1)` gives version 1; `put("b", 2)` gives version 2; `snapshot()` returns `S1`
with version 2 and contents exactly `a ↦ 1, b ↦ 2`; `erase("a")` returns true and gives
version 3; `get("a")` on the store is then absent; `S1.get("a")` is still 1 and
`S1.version()` is still 2, also for the snapshot a client holds after the `erase`. -/
theorem C11_concrete_scenario :
    scenario1.version_ = 1 ∧
    scenario2.version_ = 2 ∧
    scenarioS1.version = 2 ∧
    scenarioS1.size = 2 ∧
    (∀ (k : String) (v : Nat),
      scenarioS1.get k = some v ↔ (k = "a" ∧ v = 1) ∨ (k = "b" ∧ v = 2)) ∧
    (scenario2.snapshot.2.erase "a").1 = true ∧
    scenario3.version_ = 3 ∧
    (scenario3.get "a").1 = none ∧
    scenarioS1.get "a" = some 1 ∧
    scenarioS1.version = 2 ∧
    ((Client.start : Client String Nat).run
      [Op.put "a" 1, Op.put "b" 2, Op.snapshot, Op.erase "a"]).store.version_ = 3 ∧
    (((Client.start : Client String Nat).run
      [Op.put "a" 1, Op.put "b" 2, Op.snapshot, Op.erase "a"]).snaps.map
        (fun S => (S.get "a", S.get "b", S.version, S.size))) = [(some 1, some 2, 2, 2)] := by
  refine ⟨by decide, by decide, by decide, by decide, ?_, by decide, by decide, by decide,
    by decide, by decide, by decide, by decide⟩
  intro k v
  have he : scenarioS1.data_.entries = [("a", 1), ("b", 2)] := by decide
  rw [Snapshot.get_eq, he]
  simp only [lookupEntries_cons, lookupEntries_nil]
  by_cases ha : "a" = k
  · subst ha
    simp [eq_comm]
  · by_cases hb : "b" = k
    · subst hb
      simp [eq_comm]
    · have ha2 : ¬ k = "a" := fun h => ha h.symm
      have hb2 : ¬ k = "b" := fun h => hb h.symm
      simp [ha, hb, ha2, hb2]

end Scenario

end kvstore

/-! ## Iteration, size and counting keys -/

namespace kvstore

section Counting

variable {K V : Type}

theorem Container.traverse_eq_drop (c : Container K V) (fuel it : Nat)
    (hit : it ≤ c.entries.length) (hf : c.entries.length - it < fuel) :
    c.traverse c.cend fuel it = some (c.entries.drop it) := by
  induction fuel generalizing it with
  | zero => omega
  | succ fuel ih =>
    by_cases he : it = c.entries.length
    · subst he
      simp [Container.traverse, Container.cend]
    · have hlt : it < c.entries.length := by omega
      have hd : c.deref it = some c.entries[it] := by
        simp [Container.deref, List.getElem?_eq_getElem hlt]
      have hc : ¬ it = c.cend := he
      rw [Container.traverse, if_neg hc, hd]
      simp only [ih (it + 1) (by omega) (by omega), Option.map_some']
      rw [← List.drop_eq_getElem_cons hlt]

theorem Snapshot.iterate_eq (S : Snapshot K V) (fuel : Nat) (h : S.size < fuel) :
    S.iterate fuel = some S.data_.entries := by
  have h2 := Container.traverse_eq_drop S.data_ fuel 0 (Nat.zero_le _) (by simpa using h)
  simpa [Snapshot.iterate, Snapshot.begin, Snapshot.end_, Container.cbegin] using h2

theorem Container.empty_iff (c : Container K V) : c.empty = true ↔ c.size = 0 := by
  simp [Container.empty, Container.size, List.isEmpty_iff]

variable [DecidableEq K]

theorem Container.ncard_keys (c : Container K V) :
    Set.ncard {k : K | k ∈ c.keys} = c.size := by
  have h : {k : K | k ∈ c.keys} = ((c.keys.toFinset : Finset K) : Set K) := by
    ext k
    simp
  have hn : c.keys.Nodup := c.unique
  rw [h, Set.ncard_coe_Finset, List.toFinset_card_of_nodup hn]
  simp [Container.keys, Container.size]

theorem Container.find_is_cend_iff (c : Container K V) (key : K) :
    c.find key = c.cend ↔ key ∉ c.keys := by
  rw [Container.find, Container.cend, findIdx_key_eq_length_iff, lookupEntries_eq_none_iff]
  rfl

theorem Container.mem_keys_iff_lookup (c : Container K V) (key : K) :
    key ∈ c.keys ↔ ∃ v, lookupEntries c.entries key = some v := by
  rw [← Option.ne_none_iff_exists', ne_eq, lookupEntries_eq_none_iff, not_not]
  rfl

theorem Container.size_assign (c : Container K V) (key : K) (value : V) :
    (c.assign key value).size = if key ∈ c.keys then c.size else c.size + 1 := by
  have h := congrArg List.length (assignEntries_keys key value c.entries)
  simp only [List.length_map] at h
  show (assignEntries key value c.entries).length = _
  rw [h]
  by_cases hm : key ∈ c.keys
  · have hm2 : key ∈ c.entries.map Prod.fst := hm
    simp [hm, hm2, Container.size]
  · have hm2 : key ∉ c.entries.map Prod.fst := hm
    simp [hm, hm2, Container.size]

theorem Container.size_erase_find (c : Container K V) (key : K) (h : key ∈ c.keys) :
    (c.erase (c.find key)).size + 1 = c.size := by
  have hne : c.find key ≠ c.cend := fun h2 => (Container.find_is_cend_iff c key).mp h2 h
  have hlt : c.find key < c.entries.length :=
    lt_of_le_of_ne (List.findIdx_le_length _) hne
  show (c.entries.eraseIdx (c.find key)).length + 1 = c.entries.length
  rw [List.length_eraseIdx, if_pos hlt]
  omega

/-- C12. Iterating a snapshot from `begin()` to `end()` ends (with enough fuel for
`size()` increments) and yields the snapshot's entries: `size()` pairs in which every
key occurs once, a pair `(k, v)` occurs exactly when `get(k)` is `v`, and a second
traversal yields the same pairs in the same order. -/
theorem C12_snapshot_iteration (S : Snapshot K V) (fuel : Nat) (h : S.size < fuel) :
    ∃ xs : List (K × V),
      S.iterate fuel = some xs ∧
      xs.length = S.size ∧
      (xs.map Prod.fst).Nodup ∧
      (∀ (k : K) (v : V), (k, v) ∈ xs ↔ S.get k = some v) ∧
      (∀ fuel2 : Nat, S.size < fuel2 → S.iterate fuel2 = some xs) := by
  refine ⟨S.data_.entries, Snapshot.iterate_eq S fuel h, rfl, S.data_.unique, ?_, ?_⟩
  · intro k v
    rw [Snapshot.get_eq]
    exact ⟨lookupEntries_of_mem _ S.data_.unique k v, mem_of_lookupEntries _ k v⟩
  · intro fuel2 h2
    exact Snapshot.iterate_eq S fuel2 h2

/-- C12 (witness). Iterating the snapshot of the concrete scenario with fuel 3 yields
its two entries. -/
theorem C12_snapshot_iteration_witness :
    scenarioS1.size < 3 ∧
    ∃ xs : List (String × Nat),
      scenarioS1.iterate 3 = some xs ∧
      xs.length = scenarioS1.size ∧
      (xs.map Prod.fst).Nodup ∧
      (∀ (k : String) (v : Nat), (k, v) ∈ xs ↔ scenarioS1.get k = some v) ∧
      (∀ fuel2 : Nat, scenarioS1.size < fuel2 → scenarioS1.iterate fuel2 = some xs) :=
  ⟨by decide, C12_snapshot_iteration scenarioS1 3 (by decide)⟩

end Counting

end kvstore

/-! ## Size, emptiness and the lock guards -/

namespace kvstore

section SizeAndGuards

variable {K V : Type}

theorem KVStore.snapshot_trace (s : KVStore K V) :
    s.snapshot.2.trace =
      s.trace ++ [Event.lock_shared, Event.version_load, Event.data_read,
        Event.unlock_shared] := by
  simp [KVStore.snapshot, KVStore.emit]

theorem KVStore.size_trace (s : KVStore K V) :
    s.size.2.trace = s.trace ++ [Event.lock_shared, Event.data_read, Event.unlock_shared] := by
  simp [KVStore.size, KVStore.emit]

theorem KVStore.empty_trace (s : KVStore K V) :
    s.empty.2.trace = s.trace ++ [Event.lock_shared, Event.data_read, Event.unlock_shared] := by
  simp [KVStore.empty, KVStore.emit]

theorem KVStore.eventsSince_of_trace (s t : KVStore K V) (evs : List Event)
    (h : t.trace = s.trace ++ evs) : s.eventsSince t = evs := by
  simp [KVStore.eventsSince, h]

variable [DecidableEq K]

theorem Snapshot.contains_iff (S : Snapshot K V) (key : K) :
    S.contains key = true ↔ key ∈ S.data_.keys := by
  rw [Snapshot.contains, decide_eq_true_iff, ne_eq, Container.find_is_cend_iff, not_not]

theorem KVStore.get_isSome_iff (s : KVStore K V) (key : K) :
    (∃ v, (s.get key).1 = some v) ↔ key ∈ s.data_.keys := by
  rw [KVStore.get_fst]
  exact (Container.mem_keys_iff_lookup s.data_ key).symm

theorem KVStore.get_eq_none_iff (s : KVStore K V) (key : K) :
    (s.get key).1 = none ↔ key ∉ s.data_.keys := by
  rw [KVStore.get_fst]
  exact lookupEntries_eq_none_iff s.data_.entries key

theorem KVStore.get_trace (s : KVStore K V) (key : K) :
    (s.get key).2.trace =
      s.trace ++ [Event.lock_shared, Event.data_read, Event.unlock_shared] := by
  simp only [KVStore.get, KVStore.emit]
  split <;> simp

theorem KVStore.put_trace (s : KVStore K V) (key : K) (value : V) :
    (s.put key value).trace =
      s.trace ++ [Event.lock, Event.data_write, Event.version_fetch_add, Event.unlock] := by
  simp [KVStore.put, KVStore.emit]

theorem KVStore.erase_trace_of_not_mem (s : KVStore K V) (key : K)
    (h : key ∉ s.data_.keys) :
    (s.erase key).2.trace = s.trace ++ [Event.lock, Event.data_read, Event.unlock] := by
  have hf := (KVStore.find_eq_cend_iff s key).mpr h
  simp [KVStore.erase, KVStore.emit, hf]

theorem KVStore.erase_trace_of_mem (s : KVStore K V) (key : K) (h : key ∈ s.data_.keys) :
    (s.erase key).2.trace =
      s.trace ++ [Event.lock, Event.data_read, Event.data_write, Event.version_fetch_add,
        Event.unlock] := by
  have hf : ¬ s.data_.find key = s.data_.cend := fun h2 =>
    (KVStore.find_eq_cend_iff s key).mp h2 h
  simp [KVStore.erase, KVStore.emit, hf]

/-- C15. `size()` and `empty()` track the number of distinct keys, in every store
state (so in every state reachable from a fresh store): `size()` is the number of keys
for which `get` is present, `empty()` is true exactly when `size()` is 0, `put(k, v)`
adds 1 to `size()` when `k` was absent and leaves it unchanged when `k` was present,
`erase(k)` takes 1 from `size()` when `k` was present and leaves it unchanged when `k`
was absent, and a fresh store has `size()` 0 and `empty()` true. -/
theorem C15_size_tracks_keys (s : KVStore K V) (k : K) (v : V) :
    Set.ncard {k2 : K | ∃ v2, (s.get k2).1 = some v2} = s.size.1 ∧
    (s.empty.1 = true ↔ s.size.1 = 0) ∧
    ((s.get k).1 = none → (s.put k v).size.1 = s.size.1 + 1) ∧
    ((∃ v2, (s.get k).1 = some v2) → (s.put k v).size.1 = s.size.1) ∧
    ((∃ v2, (s.get k).1 = some v2) →
      (s.erase k).2.size.1 + 1 = s.size.1 ∧ (s.erase k).2.size.1 = s.size.1 - 1) ∧
    ((s.get k).1 = none → (s.erase k).2.size.1 = s.size.1) ∧
    (KVStore.fresh : KVStore K V).size.1 = 0 ∧
    (KVStore.fresh : KVStore K V).empty.1 = true := by
  refine ⟨?_, Container.empty_iff s.data_, ?_, ?_, ?_, ?_, rfl, rfl⟩
  · have h : {k2 : K | ∃ v2, (s.get k2).1 = some v2} = {k2 : K | k2 ∈ s.data_.keys} := by
      ext k2
      exact KVStore.get_isSome_iff s k2
    rw [h]
    exact Container.ncard_keys s.data_
  · intro h
    have hk := (KVStore.get_eq_none_iff s k).mp h
    show (s.data_.assign k v).size = s.data_.size + 1
    rw [Container.size_assign, if_neg hk]
  · intro h
    have hk := (KVStore.get_isSome_iff s k).mp h
    show (s.data_.assign k v).size = s.data_.size
    rw [Container.size_assign, if_pos hk]
  · intro h
    have hk := (KVStore.get_isSome_iff s k).mp h
    have he := (KVStore.erase_of_mem s k hk).2.1
    have h1 : (s.erase k).2.size.1 + 1 = s.size.1 := by
      show (s.erase k).2.data_.size + 1 = s.data_.size
      rw [he]
      exact Container.size_erase_find s.data_ k hk
    exact ⟨h1, by omega⟩
  · intro h
    have hk := (KVStore.get_eq_none_iff s k).mp h
    show (s.erase k).2.data_.size = s.data_.size
    rw [(KVStore.erase_of_not_mem s k hk).2.1]

/-- C17. Snapshot lookups agree with each other and with the size accessors:
`contains(k)` is true exactly when `get(k)` is present, `empty()` is true exactly when
`size()` is 0, and `size()` is the number of keys for which `contains` is true. -/
theorem C17_snapshot_lookups_agree (S : Snapshot K V) (k : K) :
    (S.contains k = true ↔ ∃ v, S.get k = some v) ∧
    (S.empty = true ↔ S.size = 0) ∧
    Set.ncard {k2 : K | S.contains k2 = true} = S.size := by
  refine ⟨?_, Container.empty_iff S.data_, ?_⟩
  · rw [Snapshot.contains_iff, Snapshot.get_eq]
    exact Container.mem_keys_iff_lookup S.data_ k
  · have h : {k2 : K | S.contains k2 = true} = {k2 : K | k2 ∈ S.data_.keys} := by
      ext k2
      exact Snapshot.contains_iff S k2
    rw [h]
    exact Container.ncard_keys S.data_

end SizeAndGuards

end kvstore

/-! ## Versions and contents -/

namespace kvstore

section Versions

variable {K V : Type} [DecidableEq K]

theorem Client.count_append (counted : KVStore K V → Op K V → Bool) (c : Client K V)
    (a b : List (Op K V)) :
    Client.count counted c (a ++ b) =
      Client.count counted c a + Client.count counted (c.run a) b := by
  induction a generalizing c with
  | nil => simp [Client.count, Client.run]
  | cons op a ih =>
    show (if counted c.store op then 1 else 0) +
        Client.count counted (c.step op) (a ++ b) =
      ((if counted c.store op then 1 else 0) + Client.count counted (c.step op) a) +
        Client.count counted ((c.step op).run a) b
    rw [ih (c.step op)]
    omega

theorem Client.step_data_of_not_bumps (c : Client K V) (op : Op K V)
    (h : op.bumps c.store = false) : (c.step op).store.data_ = c.store.data_ := by
  cases op with
  | get key => exact KVStore.get_data c.store key
  | put key value => simp [Op.bumps] at h
  | erase key =>
    have hk : key ∉ c.store.data_.keys := by simpa [Op.bumps] using h
    exact (KVStore.erase_of_not_mem c.store key hk).2.1
  | snapshot => rfl
  | size => rfl
  | empty => rfl

theorem Client.run_data_of_count_zero (c : Client K V) (ops : List (Op K V))
    (h : Client.count Op.bumps c ops = 0) : (c.run ops).store.data_ = c.store.data_ := by
  induction ops generalizing c with
  | nil => rfl
  | cons op ops ih =>
    simp only [Client.count] at h
    have hb : op.bumps c.store = false := by
      by_contra hc
      simp only [Bool.not_eq_false] at hc
      simp [hc] at h
    have h2 : Client.count Op.bumps (c.step op) ops = 0 := by omega
    rw [Client.run, ih (c.step op) h2]
    exact Client.step_data_of_not_bumps c op hb

theorem Client.same_version_same_data (ops p1 p2 : List (Op K V))
    (h : Client.count Op.bumps (Client.start : Client K V) ops < 2 ^ 64)
    (hp1 : p1 <+: ops) (hp2 : p2 <+: ops) (hle : p1.length ≤ p2.length)
    (hv : ((Client.start : Client K V).run p1).store.version_ =
      ((Client.start : Client K V).run p2).store.version_) :
    ((Client.start : Client K V).run p1).store.data_ =
      ((Client.start : Client K V).run p2).store.data_ := by
  obtain ⟨mid, hmid⟩ := List.prefix_of_prefix_length_le hp1 hp2 hle
  obtain ⟨rest, hrest⟩ := hp2
  have h0 : (Client.start : Client K V).store.version_ = 0 := rfl
  have hc : Client.count Op.bumps (Client.start : Client K V) ops =
      Client.count Op.bumps (Client.start : Client K V) p1 +
        Client.count Op.bumps ((Client.start : Client K V).run p1) mid +
        Client.count Op.bumps ((Client.start : Client K V).run p2) rest := by
    rw [← hrest, Client.count_append, ← hmid, Client.count_append]
  have hv1 := Client.run_version (Client.start : Client K V) p1 (by rw [h0]; norm_num)
  have hv2 := Client.run_version (Client.start : Client K V) p2 (by rw [h0]; norm_num)
  rw [← hmid, Client.count_append] at hv2
  rw [h0, Nat.zero_add, Nat.mod_eq_of_lt (by omega)] at hv1 hv2
  rw [← hmid] at hv
  have hz : Client.count Op.bumps ((Client.start : Client K V).run p1) mid = 0 := by omega
  rw [← hmid, Client.run_append]
  exact (Client.run_data_of_count_zero _ mid hz).symm

/-- C18. The version identifies the contents: in a run from a fresh store in which the
version counter does not wrap around (fewer than `2 ^ 64` calls advance it), two
snapshots taken during the run that have the same `version()` have the same
container, hence the same `get(k)` for every key and the same `size()`. -/
theorem C18_version_identifies_contents (ops : List (Op K V))
    (h : Client.count Op.bumps (Client.start : Client K V) ops < 2 ^ 64)
    (i j : Nat) (S1 S2 : Snapshot K V)
    (h1 : ((Client.start : Client K V).run ops).snaps[i]? = some S1)
    (h2 : ((Client.start : Client K V).run ops).snaps[j]? = some S2)
    (hv : S1.version = S2.version) :
    (∀ k : K, S1.get k = S2.get k) ∧ S1.size = S2.size := by
  have hs : ∀ (n : Nat) (S : Snapshot K V),
      ((Client.start : Client K V).run ops).snaps[n]? = some S →
      ∃ pre, pre <+: ops ∧ S.data_ = ((Client.start : Client K V).run pre).store.data_ ∧
        S.version_ = ((Client.start : Client K V).run pre).store.version_ := by
    intro n S hn
    rcases Client.snaps_origin Client.start ops n S hn with h3 | ⟨pre, post, ho, _, hd, hw⟩
    · simp [Client.start] at h3
    · exact ⟨pre, ⟨Op.snapshot :: post, ho.symm⟩, hd, hw⟩
  obtain ⟨p1, hp1, hd1, hw1⟩ := hs i S1 h1
  obtain ⟨p2, hp2, hd2, hw2⟩ := hs j S2 h2
  have hvv : ((Client.start : Client K V).run p1).store.version_ =
      ((Client.start : Client K V).run p2).store.version_ := by
    rw [← hw1, ← hw2]
    exact hv
  have hd : S1.data_ = S2.data_ := by
    rw [hd1, hd2]
    rcases le_total p1.length p2.length with hle | hle
    · exact Client.same_version_same_data ops p1 p2 h hp1 hp2 hle hvv
    · exact (Client.same_version_same_data ops p2 p1 h hp2 hp1 hle hvv.symm).symm
  constructor
  · intro k
    rw [Snapshot.get_eq, Snapshot.get_eq, hd]
  · show S1.data_.size = S2.data_.size
    rw [hd]

/-- C18 (witness). In the run `put("a", 1); snapshot(); get("a"); snapshot()` both
snapshots have version 1 and the same contents. -/
theorem C18_version_identifies_contents_witness :
    Client.count Op.bumps (Client.start : Client String Nat)
      [Op.put "a" 1, Op.snapshot, Op.get "a", Op.snapshot] < 2 ^ 64 ∧
    scenario1.snapshot.1.version = (scenario1.snapshot.2.get "a").2.snapshot.1.version ∧
    (∀ k : String,
      scenario1.snapshot.1.get k = (scenario1.snapshot.2.get "a").2.snapshot.1.get k) ∧
    scenario1.snapshot.1.size = (scenario1.snapshot.2.get "a").2.snapshot.1.size :=
  ⟨by decide, by decide,
    C18_version_identifies_contents [Op.put "a" 1, Op.snapshot, Op.get "a", Op.snapshot]
      (by decide) 0 1 scenario1.snapshot.1 (scenario1.snapshot.2.get "a").2.snapshot.1
      rfl rfl (by decide)⟩

end Versions

end kvstore

/-! ## The lock -/

namespace kvstore

section Lock

theorem RWMutex.inv_init : RWMutex.init.Inv := by
  simp [RWMutex.Inv, RWMutex.init]

theorem RWMutex.inv_admit_reader (policy : RWMutex → Bool) (m : RWMutex) (h : m.Inv)
    (ha : m.admits_reader policy = true) :
    m.admit_reader.Inv := by
  obtain ⟨h1, _⟩ := h
  have he : m.mutex_.exclusive = false := by
    simp only [RWMutex.admits_reader, Bool.and_eq_true, Bool.not_eq_true'] at ha
    exact ha.1
  constructor
  · simp only [RWMutex.admit_reader, h1]
    push_cast
    rfl
  · simp [RWMutex.admit_reader, he]

theorem RWMutex.inv_step (policy : RWMutex → Bool) (m m2 : RWMutex) (call : LockCall)
    (h : m.Inv) (hs : m.step policy call = some m2) : m2.Inv := by
  obtain ⟨h1, h2⟩ := h
  cases call with
  | lock_shared =>
    simp only [RWMutex.step, RWMutex.lock_shared] at hs
    split at hs
    · rename_i ha
      simp only [Option.some.injEq] at hs
      exact hs ▸ RWMutex.inv_admit_reader policy m ⟨h1, h2⟩ ha
    · simp at hs
  | try_lock_shared =>
    simp only [RWMutex.step, RWMutex.try_lock_shared, Option.some.injEq] at hs
    split at hs
    · rename_i ha
      exact hs ▸ RWMutex.inv_admit_reader policy m ⟨h1, h2⟩ ha
    · exact hs ▸ ⟨h1, h2⟩
  | unlock_shared =>
    simp only [RWMutex.step, RWMutex.unlock_shared] at hs
    split at hs
    · rename_i hp
      simp only [Option.some.injEq] at hs
      subst hs
      refine ⟨?_, ?_⟩
      · simp only [h1]
        omega
      · intro hc
        exact h2 ⟨hc.1, hp⟩
    · simp at hs
  | lock_enter =>
    simp only [RWMutex.step, RWMutex.lock_enter, Option.some.injEq] at hs
    subst hs
    exact ⟨h1, h2⟩
  | lock_admit =>
    simp only [RWMutex.step, RWMutex.lock_admit] at hs
    split at hs
    · rename_i hg
      simp only [Option.some.injEq] at hs
      subst hs
      refine ⟨h1, ?_⟩
      intro hc
      have := hg.2.2.1
      have := hc.2
      simp only at *
      omega
    · simp at hs
  | try_lock =>
    simp only [RWMutex.step, RWMutex.try_lock, Option.some.injEq] at hs
    split at hs
    · rename_i hg
      subst hs
      refine ⟨h1, ?_⟩
      intro hc
      have := hg.1
      have := hc.2
      simp only at *
      omega
    · exact hs ▸ ⟨h1, h2⟩
  | unlock =>
    simp only [RWMutex.step, RWMutex.unlock] at hs
    split at hs
    · simp only [Option.some.injEq] at hs
      subst hs
      exact ⟨h1, by simp⟩
    · simp at hs

theorem RWMutex.inv_run (policy : RWMutex → Bool) (m m2 : RWMutex) (calls : List LockCall)
    (h : m.Inv) (hr : m.run policy calls = some m2) : m2.Inv := by
  induction calls generalizing m with
  | nil =>
    simp only [RWMutex.run, Option.some.injEq] at hr
    exact hr ▸ h
  | cons call calls ih =>
    simp only [RWMutex.run] at hr
    cases hs : m.step policy call with
    | none => simp [hs] at hr
    | some m3 =>
      rw [hs] at hr
      exact ih m3 (RWMutex.inv_step policy m m3 call h hs) hr

/-- C13 (spec-modelled lock). Whatever the fairness rule for admitting readers, in
every state the lock reaches from its initial state by steps of any threads: `active_readers_` is at least 0; shared and exclusive access
are not held together; a step that admits a writer in `lock()` sets
`consecutive_readers_` to 0 and takes 1 from `waiting_writers_`, while every other
step leaves `consecutive_readers_` unchanged or adds 1 to it; and a `try_lock()` that
fails leaves `waiting_writers_` (and the whole state) unchanged. -/
theorem C13_lock_state_invariant (policy : RWMutex → Bool) (calls : List LockCall)
    (m : RWMutex) (h : RWMutex.init.run policy calls = some m) :
    0 ≤ m.active_readers_ ∧
    ¬ (m.mutex_.exclusive = true ∧ 0 < m.mutex_.shared) ∧
    (∀ m2 : RWMutex, m.step policy LockCall.lock_admit = some m2 →
      m2.consecutive_readers_ = 0 ∧ m2.waiting_writers_ = m.waiting_writers_ - 1) ∧
    (∀ (call : LockCall) (m2 : RWMutex), call ≠ LockCall.lock_admit →
      m.step policy call = some m2 →
      m2.consecutive_readers_ = m.consecutive_readers_ ∨
        m2.consecutive_readers_ = m.consecutive_readers_ + 1) ∧
    (m.try_lock.1 = false →
      m.try_lock.2.waiting_writers_ = m.waiting_writers_ ∧ m.try_lock.2 = m) := by
  have hinv := RWMutex.inv_run policy RWMutex.init m calls RWMutex.inv_init h
  refine ⟨?_, hinv.2, ?_, ?_, ?_⟩
  · rw [hinv.1]
    exact Int.natCast_nonneg _
  · intro m2 hs
    simp only [RWMutex.step, RWMutex.lock_admit] at hs
    split at hs
    · simp only [Option.some.injEq] at hs
      subst hs
      exact ⟨rfl, rfl⟩
    · simp at hs
  · intro call m2 hne hs
    cases call with
    | lock_admit => exact absurd rfl hne
    | lock_shared =>
      simp only [RWMutex.step, RWMutex.lock_shared] at hs
      split at hs
      · simp only [Option.some.injEq] at hs
        subst hs
        exact Or.inr rfl
      · simp at hs
    | try_lock_shared =>
      simp only [RWMutex.step, RWMutex.try_lock_shared, Option.some.injEq] at hs
      split at hs
      · subst hs
        exact Or.inr rfl
      · subst hs
        exact Or.inl rfl
    | unlock_shared =>
      simp only [RWMutex.step, RWMutex.unlock_shared] at hs
      split at hs
      · simp only [Option.some.injEq] at hs
        subst hs
        exact Or.inl rfl
      · simp at hs
    | lock_enter =>
      simp only [RWMutex.step, RWMutex.lock_enter, Option.some.injEq] at hs
      subst hs
      exact Or.inl rfl
    | try_lock =>
      simp only [RWMutex.step, RWMutex.try_lock, Option.some.injEq] at hs
      split at hs
      · subst hs
        exact Or.inl rfl
      · subst hs
        exact Or.inl rfl
    | unlock =>
      simp only [RWMutex.step, RWMutex.unlock] at hs
      split at hs
      · simp only [Option.some.injEq] at hs
        subst hs
        exact Or.inl rfl
      · simp at hs
  · intro hf
    simp only [RWMutex.try_lock] at hf ⊢
    split at hf
    · simp at hf
    · rename_i hg
      simp only [hg, if_false, and_self]

/-- C13 (witness). Two readers come and go while a writer enters; the writer is then
admitted: the state reached has no active reader, exclusive access only, and
`consecutive_readers_` back at 0. -/
theorem C13_lock_state_invariant_witness :
    RWMutex.init.run RWMutex.writer_priority [LockCall.lock_shared, LockCall.lock_shared, LockCall.lock_enter,
        LockCall.unlock_shared, LockCall.unlock_shared, LockCall.lock_admit] =
      some ⟨⟨0, true⟩, 0, 0, 0⟩ ∧
    0 ≤ (⟨⟨0, true⟩, 0, 0, 0⟩ : RWMutex).active_readers_ ∧
    ¬ ((⟨⟨0, true⟩, 0, 0, 0⟩ : RWMutex).mutex_.exclusive = true ∧
      0 < (⟨⟨0, true⟩, 0, 0, 0⟩ : RWMutex).mutex_.shared) :=
  ⟨by decide,
    (C13_lock_state_invariant RWMutex.writer_priority
      [LockCall.lock_shared, LockCall.lock_shared, LockCall.lock_enter,
        LockCall.unlock_shared, LockCall.unlock_shared, LockCall.lock_admit]
      ⟨⟨0, true⟩, 0, 0, 0⟩ (by decide)).1,
    (C13_lock_state_invariant RWMutex.writer_priority
      [LockCall.lock_shared, LockCall.lock_shared, LockCall.lock_enter,
        LockCall.unlock_shared, LockCall.unlock_shared, LockCall.lock_admit]
      ⟨⟨0, true⟩, 0, 0, 0⟩ (by decide)).2.1⟩

end Lock

end kvstore

/-! ## The method bodies under their guards -/

namespace kvstore

section Guards

variable {K V : Type} [DecidableEq K]

theorem Frame.call_snapshot (s : KVStore K V) :
    (Frame.enter s).call Guard.SharedLock KVStore.snapshotBody =
      some (⟨s.data_, s.version_, Held.nothing, 0, s.version_,
        [⟨Event.lock_shared, Held.shared, s.data_, s.version_⟩,
          ⟨Event.version_load, Held.shared, s.data_, s.version_⟩,
          ⟨Event.data_read, Held.shared, s.data_, s.version_⟩,
          ⟨Event.unlock_shared, Held.nothing, s.data_, s.version_⟩]⟩,
        Ret.snapshot s.snapshot.1) := by
  simp [Frame.call, Frame.acquire, Frame.release, Frame.runBody, Frame.exec,
    Frame.reading, Frame.record, Frame.enter, KVStore.snapshotBody, KVStore.snapshot,
    KVStore.emit]

theorem Frame.call_size (s : KVStore K V) :
    (Frame.enter s).call Guard.SharedLock KVStore.sizeBody =
      some (⟨s.data_, s.version_, Held.nothing, 0, 0,
        [⟨Event.lock_shared, Held.shared, s.data_, s.version_⟩,
          ⟨Event.data_read, Held.shared, s.data_, s.version_⟩,
          ⟨Event.unlock_shared, Held.nothing, s.data_, s.version_⟩]⟩,
        Ret.size s.size.1) := by
  simp [Frame.call, Frame.acquire, Frame.release, Frame.runBody, Frame.exec,
    Frame.reading, Frame.record, Frame.enter, KVStore.sizeBody, KVStore.size,
    KVStore.emit]

theorem Frame.call_empty (s : KVStore K V) :
    (Frame.enter s).call Guard.SharedLock KVStore.emptyBody =
      some (⟨s.data_, s.version_, Held.nothing, 0, 0,
        [⟨Event.lock_shared, Held.shared, s.data_, s.version_⟩,
          ⟨Event.data_read, Held.shared, s.data_, s.version_⟩,
          ⟨Event.unlock_shared, Held.nothing, s.data_, s.version_⟩]⟩,
        Ret.bool s.empty.1) := by
  simp [Frame.call, Frame.acquire, Frame.release, Frame.runBody, Frame.exec,
    Frame.reading, Frame.record, Frame.enter, KVStore.emptyBody, KVStore.empty,
    KVStore.emit]


theorem Frame.call_get (s : KVStore K V) (key : K) :
    (Frame.enter s).call Guard.SharedLock (KVStore.getBody key) =
      some (⟨s.data_, s.version_, Held.nothing, s.data_.find key, 0,
        [⟨Event.lock_shared, Held.shared, s.data_, s.version_⟩,
          ⟨Event.data_read, Held.shared, s.data_, s.version_⟩,
          ⟨Event.data_read, Held.shared, s.data_, s.version_⟩,
          ⟨Event.unlock_shared, Held.nothing, s.data_, s.version_⟩]⟩,
        Ret.value (s.get key).1) := by
  by_cases h : s.data_.find key = s.data_.cend
  · simp [Frame.call, Frame.acquire, Frame.release, Frame.runBody, Frame.exec,
      Frame.reading, Frame.record, Frame.enter, KVStore.getBody, KVStore.get,
      KVStore.emit, h]
  · simp [Frame.call, Frame.acquire, Frame.release, Frame.runBody, Frame.exec,
      Frame.reading, Frame.record, Frame.enter, KVStore.getBody, KVStore.get,
      KVStore.emit, h]

theorem Frame.call_put (s : KVStore K V) (key : K) (value : V) :
    (Frame.enter s).call Guard.ExclusiveLock (KVStore.putBody key value) =
      some (⟨s.data_.assign key value, (s.version_ + 1) % 2 ^ 64, Held.nothing, 0, 0,
        [⟨Event.lock, Held.exclusive, s.data_, s.version_⟩,
          ⟨Event.data_write, Held.exclusive, s.data_.assign key value, s.version_⟩,
          ⟨Event.version_fetch_add, Held.exclusive, s.data_.assign key value,
            (s.version_ + 1) % 2 ^ 64⟩,
          ⟨Event.unlock, Held.nothing, s.data_.assign key value,
            (s.version_ + 1) % 2 ^ 64⟩]⟩,
        Ret.void) := by
  simp [Frame.call, Frame.acquire, Frame.release, Frame.runBody, Frame.exec,
    Frame.writing, Frame.record, Frame.enter, KVStore.putBody, fetch_add, VERSION_MOD]

theorem Frame.call_erase_of_not_mem (s : KVStore K V) (key : K) (h : key ∉ s.data_.keys) :
    (Frame.enter s).call Guard.ExclusiveLock (KVStore.eraseBody key) =
      some (⟨s.data_, s.version_, Held.nothing, s.data_.find key, 0,
        [⟨Event.lock, Held.exclusive, s.data_, s.version_⟩,
          ⟨Event.data_read, Held.exclusive, s.data_, s.version_⟩,
          ⟨Event.data_read, Held.exclusive, s.data_, s.version_⟩,
          ⟨Event.unlock, Held.nothing, s.data_, s.version_⟩]⟩,
        Ret.bool false) := by
  have hf := (KVStore.find_eq_cend_iff s key).mpr h
  simp [Frame.call, Frame.acquire, Frame.release, Frame.runBody, Frame.exec,
    Frame.reading, Frame.record, Frame.enter, KVStore.eraseBody, hf]

theorem Frame.call_erase_of_mem (s : KVStore K V) (key : K) (h : key ∈ s.data_.keys) :
    (Frame.enter s).call Guard.ExclusiveLock (KVStore.eraseBody key) =
      some (⟨s.data_.erase (s.data_.find key), (s.version_ + 1) % 2 ^ 64, Held.nothing,
        s.data_.find key, 0,
        [⟨Event.lock, Held.exclusive, s.data_, s.version_⟩,
          ⟨Event.data_read, Held.exclusive, s.data_, s.version_⟩,
          ⟨Event.data_read, Held.exclusive, s.data_, s.version_⟩,
          ⟨Event.data_write, Held.exclusive, s.data_.erase (s.data_.find key), s.version_⟩,
          ⟨Event.version_fetch_add, Held.exclusive, s.data_.erase (s.data_.find key),
            (s.version_ + 1) % 2 ^ 64⟩,
          ⟨Event.unlock, Held.nothing, s.data_.erase (s.data_.find key),
            (s.version_ + 1) % 2 ^ 64⟩]⟩,
        Ret.bool true) := by
  have hf : ¬ s.data_.find key = s.data_.cend := fun h2 =>
    (KVStore.find_eq_cend_iff s key).mp h2 h
  simp [Frame.call, Frame.acquire, Frame.release, Frame.runBody, Frame.exec,
    Frame.reading, Frame.writing, Frame.record, Frame.enter, KVStore.eraseBody, hf,
    fetch_add, VERSION_MOD]

/-- C16. Every method runs as one critical section of the lock.  Run statement by
statement under its guard, from a thread that holds nothing, each method completes with
the value, `data_` and `version_` of the operation, never touches `data_` or `version_`
without the mutex held (exclusively for writes), and ends holding nothing: `get`,
`snapshot`, `size` and `empty` execute exactly one `lock_shared`, first, and exactly one
`unlock_shared`, last; `put` and `erase` execute exactly one `lock`, first, and exactly
one `unlock`, last, on both return paths of `erase`; and in `put` and `erase` the
version is incremented after the map has been changed and before the release. -/
theorem C16_operations_are_critical_sections (s : KVStore K V) (k : K) (v : V) :
    (∃ f : Frame K V,
      (Frame.enter s).call Guard.SharedLock (KVStore.getBody k) =
        some (f, Ret.value (s.get k).1) ∧
      f.data_ = (s.get k).2.data_ ∧ f.version_ = (s.get k).2.version_ ∧
      f.held = Held.nothing ∧
      f.events = [Event.lock_shared, Event.data_read, Event.data_read,
        Event.unlock_shared] ∧
      SharedSection f.events ∧ f.accessesUnderLock) ∧
    (∃ f : Frame K V,
      (Frame.enter s).call Guard.SharedLock KVStore.snapshotBody =
        some (f, Ret.snapshot s.snapshot.1) ∧
      f.data_ = s.snapshot.2.data_ ∧ f.version_ = s.snapshot.2.version_ ∧
      f.held = Held.nothing ∧
      f.events = [Event.lock_shared, Event.version_load, Event.data_read,
        Event.unlock_shared] ∧
      SharedSection f.events ∧ f.accessesUnderLock) ∧
    (∃ f : Frame K V,
      (Frame.enter s).call Guard.SharedLock KVStore.sizeBody = some (f, Ret.size s.size.1) ∧
      f.data_ = s.size.2.data_ ∧ f.version_ = s.size.2.version_ ∧
      f.held = Held.nothing ∧
      f.events = [Event.lock_shared, Event.data_read, Event.unlock_shared] ∧
      SharedSection f.events ∧ f.accessesUnderLock) ∧
    (∃ f : Frame K V,
      (Frame.enter s).call Guard.SharedLock KVStore.emptyBody =
        some (f, Ret.bool s.empty.1) ∧
      f.data_ = s.empty.2.data_ ∧ f.version_ = s.empty.2.version_ ∧
      f.held = Held.nothing ∧
      f.events = [Event.lock_shared, Event.data_read, Event.unlock_shared] ∧
      SharedSection f.events ∧ f.accessesUnderLock) ∧
    (∃ f : Frame K V,
      (Frame.enter s).call Guard.ExclusiveLock (KVStore.putBody k v) = some (f, Ret.void) ∧
      f.data_ = (s.put k v).data_ ∧ f.version_ = (s.put k v).version_ ∧
      f.held = Held.nothing ∧
      f.steps =
        [⟨Event.lock, Held.exclusive, s.data_, s.version_⟩,
          ⟨Event.data_write, Held.exclusive, (s.put k v).data_, s.version_⟩,
          ⟨Event.version_fetch_add, Held.exclusive, (s.put k v).data_,
            (s.put k v).version_⟩,
          ⟨Event.unlock, Held.nothing, (s.put k v).data_, (s.put k v).version_⟩] ∧
      ExclusiveSection f.events ∧ IncrementAfterWrite f.events ∧ f.accessesUnderLock) ∧
    (∃ f : Frame K V,
      (Frame.enter s).call Guard.ExclusiveLock (KVStore.eraseBody k) =
        some (f, Ret.bool (s.erase k).1) ∧
      f.data_ = (s.erase k).2.data_ ∧ f.version_ = (s.erase k).2.version_ ∧
      f.held = Held.nothing ∧
      ExclusiveSection f.events ∧ f.accessesUnderLock ∧
      (k ∉ s.data_.keys →
        f.events = [Event.lock, Event.data_read, Event.data_read, Event.unlock]) ∧
      (k ∈ s.data_.keys →
        f.steps =
          [⟨Event.lock, Held.exclusive, s.data_, s.version_⟩,
            ⟨Event.data_read, Held.exclusive, s.data_, s.version_⟩,
            ⟨Event.data_read, Held.exclusive, s.data_, s.version_⟩,
            ⟨Event.data_write, Held.exclusive, (s.erase k).2.data_, s.version_⟩,
            ⟨Event.version_fetch_add, Held.exclusive, (s.erase k).2.data_,
              (s.erase k).2.version_⟩,
            ⟨Event.unlock, Held.nothing, (s.erase k).2.data_, (s.erase k).2.version_⟩] ∧
        IncrementAfterWrite f.events)) := by
  refine ⟨⟨_, Frame.call_get s k, (KVStore.get_data s k).symm,
      (KVStore.get_version s k).symm, rfl, rfl, ?_, ?_⟩,
    ⟨_, Frame.call_snapshot s, rfl, rfl, rfl, rfl, ?_, ?_⟩,
    ⟨_, Frame.call_size s, rfl, rfl, rfl, rfl, ?_, ?_⟩,
    ⟨_, Frame.call_empty s, rfl, rfl, rfl, rfl, ?_, ?_⟩,
    ⟨_, Frame.call_put s k v, rfl, rfl, rfl, rfl, ?_, ?_, ?_⟩, ?_⟩
  · simp [Frame.events, SharedSection]
  · simp [Frame.accessesUnderLock]
  · simp [Frame.events, SharedSection]
  · simp [Frame.accessesUnderLock]
  · simp [Frame.events, SharedSection]
  · simp [Frame.accessesUnderLock]
  · simp [Frame.events, SharedSection]
  · simp [Frame.accessesUnderLock]
  · simp [Frame.events, ExclusiveSection]
  · simp only [Frame.events, IncrementAfterWrite, List.map_cons, List.map_nil]
    decide
  · simp [Frame.accessesUnderLock]
  · by_cases h : k ∈ s.data_.keys
    · obtain ⟨e1, e2, e3⟩ := KVStore.erase_of_mem s k h
      have hc := Frame.call_erase_of_mem s k h
      rw [← e1] at hc
      refine ⟨_, hc, e2.symm, e3.symm, rfl, ?_, ?_, fun h2 => absurd h h2, fun _ => ⟨?_, ?_⟩⟩
      · simp [Frame.events, ExclusiveSection]
      · simp [Frame.accessesUnderLock]
      · rw [e2, e3]
      · simp only [Frame.events, IncrementAfterWrite, List.map_cons, List.map_nil]
        decide
    · obtain ⟨e1, e2, e3⟩ := KVStore.erase_of_not_mem s k h
      have hc := Frame.call_erase_of_not_mem s k h
      rw [← e1] at hc
      refine ⟨_, hc, e2.symm, e3.symm, rfl, ?_, ?_, fun _ => rfl, fun h2 => absurd h2 h⟩
      · simp [Frame.events, ExclusiveSection]
      · simp [Frame.accessesUnderLock]

end Guards

end kvstore

/-! ## Starvation -/

namespace kvstore

section Starvation

end Starvation

end kvstore

/-! ## What the guard is needed for -/

namespace kvstore

section Unguarded

variable {K V : Type} [DecidableEq K]

/-- Without its guard no method body runs: its first statement touches `data_` or
`version_` while the thread holds nothing. -/
theorem Frame.runBody_unguarded (s : KVStore K V) (k : K) (v : V) :
    (Frame.enter s).runBody (KVStore.getBody k) = none ∧
    (Frame.enter s).runBody (KVStore.putBody k v) = none ∧
    (Frame.enter s).runBody (KVStore.eraseBody k) = none ∧
    (Frame.enter s).runBody (KVStore.snapshotBody : List (Stmt K V)) = none ∧
    (Frame.enter s).runBody (KVStore.sizeBody : List (Stmt K V)) = none ∧
    (Frame.enter s).runBody (KVStore.emptyBody : List (Stmt K V)) = none := by
  refine ⟨?_, ?_, ?_, ?_, ?_, ?_⟩ <;>
    simp [Frame.runBody, Frame.exec, Frame.reading, Frame.writing, Frame.enter,
      KVStore.getBody, KVStore.putBody, KVStore.eraseBody, KVStore.snapshotBody,
      KVStore.sizeBody, KVStore.emptyBody]

/-- Under the shared guard a body that writes does not run. -/
theorem Frame.call_put_shared (s : KVStore K V) (k : K) (v : V) :
    (Frame.enter s).call Guard.SharedLock (KVStore.putBody k v) = none := by
  simp [Frame.call, Frame.acquire, Frame.runBody, Frame.exec, Frame.writing, Frame.record,
    Frame.enter, KVStore.putBody]

end Unguarded

end kvstore
